import Mathlib

/-!
# Verification of the xdiff request-construction and response-comparison engine

Shallow embedding of the core of the `fw6/xdiff` repository
(`src/config/mod.rs`, `src/cli.rs`, `src/utils.rs`) together with models of
the third-party behaviour the core leans on (`serde_json`, `serde_urlencoded`,
`serde_qs`, the `http` header types and the `similar` diff crate).

Modelling conventions:
* JSON numbers are modelled as unbounded integers (`Int`); floating point
  numbers are outside the model.
* Strings are Lean `String`s; header values are strings of Unicode characters,
  with the `http` crate's byte-level checks expressed per character
  (for the ASCII fragment this coincides with the byte-level behaviour).
* Fallible Rust code returns `Except`/`Option`; a Rust `panic!` (for example
  `Option::unwrap` on `None`) is modelled as a distinguished error value.
-/

set_option autoImplicit false

namespace XdiffSpec

/-- Concatenation of a list of strings. -/
def joinStrs : List String → String
  | [] => ""
  | s :: rest => s ++ joinStrs rest

/-- Model of `serde_json::Value` with the `preserve_order` map representation:
an object is an ordered association list of key/value pairs.
Numbers are restricted to integers (floats are outside the model). -/
inductive Json where
  | null : Json
  | bool (b : Bool) : Json
  | num (n : Int) : Json
  | str (s : String) : Json
  | arr (items : List Json) : Json
  | obj (members : List (String × Json)) : Json
  deriving Repr, BEq

/-- Structural equality of `Json` values is decidable. -/
def Json.beqSound : (a b : Json) → Decidable (a = b)
  | .null, .null => isTrue rfl
  | .null, .bool _ | .null, .num _ | .null, .str _ | .null, .arr _ | .null, .obj _ =>
      isFalse (by intro h; cases h)
  | .bool _, .null | .bool _, .num _ | .bool _, .str _ | .bool _, .arr _ | .bool _, .obj _ =>
      isFalse (by intro h; cases h)
  | .num _, .null | .num _, .bool _ | .num _, .str _ | .num _, .arr _ | .num _, .obj _ =>
      isFalse (by intro h; cases h)
  | .str _, .null | .str _, .bool _ | .str _, .num _ | .str _, .arr _ | .str _, .obj _ =>
      isFalse (by intro h; cases h)
  | .arr _, .null | .arr _, .bool _ | .arr _, .num _ | .arr _, .str _ | .arr _, .obj _ =>
      isFalse (by intro h; cases h)
  | .obj _, .null | .obj _, .bool _ | .obj _, .num _ | .obj _, .str _ | .obj _, .arr _ =>
      isFalse (by intro h; cases h)
  | .bool a, .bool b =>
      if h : a = b then isTrue (by rw [h]) else isFalse (by intro hc; cases hc; exact h rfl)
  | .num a, .num b =>
      if h : a = b then isTrue (by rw [h]) else isFalse (by intro hc; cases hc; exact h rfl)
  | .str a, .str b =>
      if h : a = b then isTrue (by rw [h]) else isFalse (by intro hc; cases hc; exact h rfl)
  | .arr [], .arr [] => isTrue rfl
  | .arr [], .arr (_ :: _) => isFalse (by intro h; cases h)
  | .arr (_ :: _), .arr [] => isFalse (by intro h; cases h)
  | .arr (x :: xs), .arr (y :: ys) =>
      match Json.beqSound x y, Json.beqSound (.arr xs) (.arr ys) with
      | isTrue h1, isTrue h2 => isTrue (by cases h1; cases h2; rfl)
      | isFalse h1, _ => isFalse (by intro hc; cases hc; exact h1 rfl)
      | _, isFalse h2 => isFalse (by intro hc; cases hc; exact h2 rfl)
  | .obj [], .obj [] => isTrue rfl
  | .obj [], .obj (_ :: _) => isFalse (by intro h; cases h)
  | .obj (_ :: _), .obj [] => isFalse (by intro h; cases h)
  | .obj ((k1, v1) :: xs), .obj ((k2, v2) :: ys) =>
      if hk : k1 = k2 then
        match Json.beqSound v1 v2, Json.beqSound (.obj xs) (.obj ys) with
        | isTrue h1, isTrue h2 => isTrue (by cases hk; cases h1; cases hc : h2; cases h2; rfl)
        | isFalse h1, _ => isFalse (by intro hc; cases hc; exact h1 rfl)
        | _, isFalse h2 => isFalse (by intro hc; cases hc; exact h2 rfl)
      else isFalse (by intro hc; cases hc; exact hk rfl)

instance : DecidableEq Json := fun a b => Json.beqSound a b

/-- Decidable equality on `Except`, for evaluating concrete results. -/
instance {ε α : Type} [DecidableEq ε] [DecidableEq α] : DecidableEq (Except ε α) :=
  fun a b =>
    match a, b with
    | .ok x, .ok y =>
        if h : x = y then isTrue (by rw [h]) else isFalse (by intro hc; cases hc; exact h rfl)
    | .error x, .error y =>
        if h : x = y then isTrue (by rw [h]) else isFalse (by intro hc; cases hc; exact h rfl)
    | .ok _, .error _ => isFalse (by intro hc; cases hc)
    | .error _, .ok _ => isFalse (by intro hc; cases hc)

namespace Json

/-- `Value::is_object`. -/
def isObject : Json → Bool
  | .obj _ => true
  | _ => false

/-- Insert-or-replace on the ordered member list: an existing key keeps its
position and receives the new value, a fresh key is appended at the end
(the `IndexMap` insert used by `serde_json` with `preserve_order`). -/
def objInsert (members : List (String × Json)) (key : String) (v : Json) :
    List (String × Json) :=
  match members with
  | [] => [(key, v)]
  | (k, w) :: rest =>
      if k = key then (k, v) :: rest else (k, w) :: objInsert rest key v

end Json

/-! ## Parsing JSON text: model of `serde_json::from_str::<Value>` /
`str::parse::<serde_json::Value>` (restricted to integer numbers). -/

/-- JSON insignificant whitespace (space, tab, line feed, carriage return). -/
def isJsonWs (c : Char) : Bool :=
  c = ' ' || c = Char.ofNat 9 || c = Char.ofNat 10 || c = Char.ofNat 13

/-- Drop leading JSON whitespace. -/
def skipWs : List Char → List Char
  | [] => []
  | c :: cs => if isJsonWs c then skipWs cs else c :: cs

/-- Value of a hexadecimal digit, if the character is one. -/
def hexVal (c : Char) : Option Nat :=
  if '0' ≤ c ∧ c ≤ '9' then some (c.toNat - 48)
  else if 'a' ≤ c ∧ c ≤ 'f' then some (c.toNat - 97 + 10)
  else if 'A' ≤ c ∧ c ≤ 'F' then some (c.toNat - 65 + 10)
  else none

/-- Parse the characters of a JSON string literal after the opening quote,
handling the escape sequences `serde_json` accepts. Returns the decoded
characters and the input remaining after the closing quote. -/
def parseStringChars : Nat → List Char → Option (List Char × List Char)
  | 0, _ => none
  | _ + 1, [] => none
  | fuel + 1, c :: cs =>
    if c = '"' then some ([], cs)
    else if c = '\\' then
      match cs with
      | [] => none
      | e :: cs2 =>
        let decoded : Option (Char × List Char) :=
          if e = '"' then some ('"', cs2)
          else if e = '\\' then some ('\\', cs2)
          else if e = '/' then some ('/', cs2)
          else if e = 'n' then some (Char.ofNat 10, cs2)
          else if e = 't' then some (Char.ofNat 9, cs2)
          else if e = 'r' then some (Char.ofNat 13, cs2)
          else if e = 'b' then some (Char.ofNat 8, cs2)
          else if e = 'f' then some (Char.ofNat 12, cs2)
          else if e = 'u' then
            match cs2 with
            | h1 :: h2 :: h3 :: h4 :: cs3 =>
              match hexVal h1, hexVal h2, hexVal h3, hexVal h4 with
              | some a, some b, some c3, some d =>
                  some (Char.ofNat (a * 4096 + b * 256 + c3 * 16 + d), cs3)
              | _, _, _, _ => none
            | _ => none
          else none
        match decoded with
        | some (ch, rest) =>
          match parseStringChars fuel rest with
          | some (tail, rest2) => some (ch :: tail, rest2)
          | none => none
        | none => none
    else if c.toNat < 32 then none
    else
      match parseStringChars fuel cs with
      | some (tail, rest2) => some (c :: tail, rest2)
      | none => none

/-- Parse a run of decimal digits (at least one). -/
def parseDigits : List Char → Option (List Char × List Char)
  | [] => none
  | c :: cs =>
    if c.isDigit then
      match cs with
      | [] => some ([c], [])
      | d :: _ =>
        if d.isDigit then
          match parseDigits cs with
          | some (ds, rest) => some (c :: ds, rest)
          | none => none
        else some ([c], cs)
    else none

/-- Digits to a natural number value. -/
def digitsToNat (ds : List Char) : Nat :=
  ds.foldl (fun acc c => acc * 10 + (c.toNat - 48)) 0

mutual

/-- Parse one JSON value (whitespace already skipped). Model of the
`serde_json` value grammar; a number followed by `.`, `e` or `E` would be a
float and is outside the model, so parsing fails there. -/
def parseVal : Nat → List Char → Option (Json × List Char)
  | 0, _ => none
  | _ + 1, [] => none
  | fuel + 1, c :: cs =>
    if c = 'n' then
      match cs with
      | 'u' :: 'l' :: 'l' :: rest => some (.null, rest)
      | _ => none
    else if c = 't' then
      match cs with
      | 'r' :: 'u' :: 'e' :: rest => some (.bool true, rest)
      | _ => none
    else if c = 'f' then
      match cs with
      | 'a' :: 'l' :: 's' :: 'e' :: rest => some (.bool false, rest)
      | _ => none
    else if c = '"' then
      match parseStringChars (fuel + 1) cs with
      | some (chars, rest) => some (.str (String.mk chars), rest)
      | none => none
    else if c = '[' then
      match skipWs cs with
      | ']' :: rest => some (.arr [], rest)
      | cs2 =>
        match parseElems fuel cs2 with
        | some (items, rest) => some (.arr items, rest)
        | none => none
    else if c = '\x7b' then
      match skipWs cs with
      | '\x7d' :: rest => some (.obj [], rest)
      | cs2 =>
        match parseMembers fuel cs2 with
        | some (members, rest) =>
            -- members enter the map through insert, so a duplicate key keeps
            -- its first position and the later value
            some (.obj (members.foldl (fun acc kv => Json.objInsert acc kv.1 kv.2) []), rest)
        | none => none
    else if c = '-' ∨ c.isDigit then
      let (neg, cs1) := if c = '-' then (true, cs) else (false, c :: cs)
      match parseDigits cs1 with
      | some (ds, rest) =>
        -- leading zeros are rejected (as in serde_json); a following '.',
        -- 'e' or 'E' would start a float, which is outside the model
        if ds.length > 1 ∧ ds.headD ' ' = '0' then none
        else
          match rest with
          | e :: _ =>
            if e = '.' ∨ e = 'e' ∨ e = 'E' then none
            else some (.num (if neg then -(digitsToNat ds : Int) else (digitsToNat ds : Int)), rest)
          | [] => some (.num (if neg then -(digitsToNat ds : Int) else (digitsToNat ds : Int)), [])
      | none => none
    else none

/-- Parse the comma-separated elements of a non-empty array, consuming the
closing bracket. -/
def parseElems : Nat → List Char → Option (List Json × List Char)
  | 0, _ => none
  | fuel + 1, cs =>
    match parseVal fuel (skipWs cs) with
    | some (v, rest) =>
      match skipWs rest with
      | ',' :: rest2 =>
        match parseElems fuel rest2 with
        | some (items, rest3) => some (v :: items, rest3)
        | none => none
      | ']' :: rest2 => some ([v], rest2)
      | _ => none
    | none => none

/-- Parse the comma-separated members of a non-empty object, consuming the
closing brace. -/
def parseMembers : Nat → List Char → Option (List (String × Json) × List Char)
  | 0, _ => none
  | fuel + 1, cs =>
    match skipWs cs with
    | '"' :: cs1 =>
      match parseStringChars fuel cs1 with
      | some (keyChars, rest) =>
        match skipWs rest with
        | ':' :: rest2 =>
          match parseVal fuel (skipWs rest2) with
          | some (v, rest3) =>
            match skipWs rest3 with
            | ',' :: rest4 =>
              match parseMembers fuel rest4 with
              | some (members, rest5) =>
                  some ((String.mk keyChars, v) :: members, rest5)
              | none => none
            | '\x7d' :: rest4 => some ([(String.mk keyChars, v)], rest4)
            | _ => none
          | none => none
        | _ => none
      | none => none
    | _ => none

end

/-- Model of `str::parse::<serde_json::Value>` (= `serde_json::from_str`):
parse one JSON value and require the whole input to be consumed. -/
def jsonFromStr (s : String) : Option Json :=
  match parseVal (s.length + 1) (skipWs s.data) with
  | some (v, rest) => if skipWs rest = [] then some v else none
  | none => none

/-! ## Printing JSON text: models of `serde_json::to_string` and
`serde_json::to_string_pretty`. -/

/-- Lower-case hex digit characters of a value below 256, two digits. -/
def hexByte (n : Nat) : String :=
  let digit (k : Nat) : Char :=
    if k < 10 then Char.ofNat (48 + k) else Char.ofNat (97 + (k - 10))
  String.mk [digit (n / 16 % 16), digit (n % 16)]

/-- `serde_json` string escaping: quote, backslash and control characters are
escaped, everything else is emitted as is. -/
def escapeJsonChar (c : Char) : String :=
  if c = '"' then "\\\""
  else if c = '\\' then "\\\\"
  else if c = Char.ofNat 8 then "\\b"
  else if c = Char.ofNat 12 then "\\f"
  else if c = Char.ofNat 10 then "\\n"
  else if c = Char.ofNat 13 then "\\r"
  else if c = Char.ofNat 9 then "\\t"
  else if c.toNat < 32 then "\\u00" ++ hexByte c.toNat
  else String.singleton c

/-- A JSON string literal with its surrounding quotes. -/
def jsonQuote (s : String) : String :=
  "\"" ++ String.join (s.data.map escapeJsonChar) ++ "\""

mutual

/-- Model of `serde_json::to_string` (compact rendering). -/
def jsonCompact : Json → String
  | .null => "null"
  | .bool true => "true"
  | .bool false => "false"
  | .num n => toString n
  | .str s => jsonQuote s
  | .arr items => "[" ++ jsonCompactList items ++ "]"
  | .obj members => "\x7b" ++ jsonCompactMembers members ++ "\x7d"

def jsonCompactList : List Json → String
  | [] => ""
  | [v] => jsonCompact v
  | v :: rest => jsonCompact v ++ "," ++ jsonCompactList rest

def jsonCompactMembers : List (String × Json) → String
  | [] => ""
  | [(k, v)] => jsonQuote k ++ ":" ++ jsonCompact v
  | (k, v) :: rest => jsonQuote k ++ ":" ++ jsonCompact v ++ "," ++ jsonCompactMembers rest

end

/-- `n` copies of two spaces: the pretty printer's indentation. -/
def indentStr (n : Nat) : String :=
  String.join (List.replicate n "  ")

mutual

/-- Model of `serde_json::to_string_pretty` (two-space indentation, one member
or element per line, keys in stored order). -/
def jsonPretty : Nat → Json → String
  | _, .null => "null"
  | _, .bool true => "true"
  | _, .bool false => "false"
  | _, .num n => toString n
  | _, .str s => jsonQuote s
  | _, .arr [] => "[]"
  | depth, .arr (v :: rest) =>
      "[\n" ++ jsonPrettyList (depth + 1) (v :: rest) ++ "\n" ++ indentStr depth ++ "]"
  | _, .obj [] => "\x7b\x7d"
  | depth, .obj (m :: rest) =>
      "\x7b\n" ++ jsonPrettyMembers (depth + 1) (m :: rest) ++ "\n" ++ indentStr depth ++ "\x7d"

def jsonPrettyList : Nat → List Json → String
  | _, [] => ""
  | depth, [v] => indentStr depth ++ jsonPretty depth v
  | depth, v :: rest =>
      indentStr depth ++ jsonPretty depth v ++ ",\n" ++ jsonPrettyList depth rest

def jsonPrettyMembers : Nat → List (String × Json) → String
  | _, [] => ""
  | depth, [(k, v)] => indentStr depth ++ jsonQuote k ++ ": " ++ jsonPretty depth v
  | depth, (k, v) :: rest =>
      indentStr depth ++ jsonQuote k ++ ": " ++ jsonPretty depth v ++ ",\n" ++
        jsonPrettyMembers depth rest

end

/-- Top-level pretty rendering. -/
def jsonToStringPretty (v : Json) : String :=
  jsonPretty 0 v

/-! ## HTTP header model (the `http` crate's `HeaderName` / `HeaderValue` /
`HeaderMap`, at character level). -/

/-- Characters valid inside a (lower-cased) header name: the token characters
accepted by `HeaderName::from_str` after lower-casing. -/
def isHeaderNameChar (c : Char) : Bool :=
  c.isLower || c.isDigit ||
    (c.toNat ∈ [33, 35, 36, 37, 38, 39, 42, 43, 45, 46, 94, 95, 96, 124, 126])

/-- Model of `HeaderName::from_str`: upper-case letters are lower-cased, the
result must be a non-empty string of token characters. -/
def headerNameFromStr (s : String) : Option String :=
  let lowered := String.mk (s.data.map Char.toLower)
  if s.data ≠ [] ∧ lowered.data.all isHeaderNameChar then some lowered else none

/-- Byte-level validity for `HeaderValue::from_str`: tab or any byte from 32
upward except DEL, expressed per character (a multi-byte character's UTF-8
bytes are all at least 128 and hence valid). -/
def isHeaderValueChar (c : Char) : Bool :=
  c.toNat = 9 || (32 ≤ c.toNat && c.toNat ≠ 127)

/-- Model of `HeaderValue::from_str`. -/
def headerValueFromStr (s : String) : Option String :=
  if s.data.all isHeaderValueChar then some s else none

/-- Visible-ASCII check of `HeaderValue::to_str`: tab or a byte in `32..=126`.
A character outside this range (in particular any non-ASCII character) makes
`to_str` fail. -/
def isVisibleAscii (c : Char) : Bool :=
  c.toNat = 9 || (32 ≤ c.toNat && c.toNat < 127)

/-- Model of `HeaderValue::to_str`. -/
def headerValueToStr (s : String) : Option String :=
  if s.data.all isVisibleAscii then some s else none

/-- The `http` crate's `HeaderMap`, modelled as an association list in
insertion order with lower-cased names (iteration follows insertion order;
`insert` on an existing name replaces the value in place). -/
abbrev HeaderMap := List (String × String)

/-- `HeaderMap::insert`: replace the value of an existing name keeping its
position, otherwise append the new entry at the end. -/
def hdrInsert (h : HeaderMap) (key v : String) : HeaderMap :=
  match h with
  | [] => [(key, v)]
  | (k, w) :: rest =>
      if k = key then (k, v) :: rest else (k, w) :: hdrInsert rest key v

/-- `HeaderMap::contains_key`. -/
def hdrContains (h : HeaderMap) (key : String) : Bool :=
  h.any (fun kv => kv.1 = key)

/-- `HeaderMap::get`: the value of the first entry with the given name. -/
def hdrGet (h : HeaderMap) (key : String) : Option String :=
  (h.find? (fun kv => kv.1 = key)).map Prod.snd

/-- `get_content_type` (src/config/mod.rs): look up `Content-Type`, unwrap
`to_str` — a panic when the value holds non-visible-ASCII characters,
modelled as `Except.error ()` — and keep the part before the first `;`
(`split(';').next()`). -/
def get_content_type (headers : HeaderMap) : Except Unit (Option String) :=
  match hdrGet headers "content-type" with
  | none => .ok none
  | some v =>
    match headerValueToStr v with
    | none => .error ()
    | some s => .ok (some (String.mk (s.data.takeWhile (fun c => c ≠ ';'))))

/-! ## Override classification (src/cli.rs). -/

/-- Model of `str::trim`: drop whitespace from both ends (`Char.isWhitespace`
models `char::is_whitespace`; the model covers the ASCII fragment). -/
def strTrim (s : String) : String :=
  String.mk (((s.data.dropWhile Char.isWhitespace).reverse.dropWhile
    Char.isWhitespace).reverse)

/-- `KeyValType` (src/cli.rs). -/
inductive KeyValType where
  | Query : KeyValType
  | Header : KeyValType
  | Body : KeyValType
  deriving Repr, DecidableEq

/-- `KeyVal` (src/cli.rs). -/
structure KeyVal where
  key_type : KeyValType
  key : String
  value : String
  deriving Repr, DecidableEq

/-- `parse_key_value` (src/cli.rs): split on the first `=`, trim both parts,
classify by the key's first character (`%` header, `@` body, alphabetic
query), stripping the sigil. `Char.isAlpha` models `char::is_alphabetic`
(the model covers the ASCII fragment). -/
def parse_key_value (s : String) : Except String KeyVal :=
  -- splitn(2, '='): the key is everything before the first '=', the value
  -- everything after it; with no '=' the second part is missing
  match s.data.dropWhile (fun c => c ≠ '=') with
  | [] => .error "Invalid key value pair"
  | _ :: valueChars =>
    let key := strTrim (String.mk (s.data.takeWhile (fun c => c ≠ '=')))
    let value := strTrim (String.mk valueChars)
    match key.data with
    | [] => .error "Invalid key value pair"
    | c :: tailChars =>
      if c = '%' then .ok ⟨.Header, String.mk tailChars, value⟩
      else if c = '@' then .ok ⟨.Body, String.mk tailChars, value⟩
      else if c.isAlpha then .ok ⟨.Query, key, value⟩
      else .error "Invalid key value pair"

/-- `ExtraArgs` (src/lib.rs): the Override Set, grouped by kind. -/
structure ExtraArgs where
  headers : List (String × String) := []
  query : List (String × String) := []
  body : List (String × String) := []
  deriving Repr, DecidableEq

/-! ## Request profile and the merge algorithm (src/config/mod.rs). -/

/-- Errors of `RequestProfile::generate` and `get_url`. A Rust panic is its
own constructor. -/
inductive GenErr where
  | invalidHeaderName : GenErr
  | invalidHeaderValue : GenErr
  | jsonParseError : GenErr
  | formSerializeError : GenErr
  | unsupportedContentType : GenErr
  | panicked : GenErr
  deriving Repr, DecidableEq

/-- A URL, as far as the merge logic observes it: a base (scheme, host, path)
and an optional query string. `Url::set_query` replaces the query part. -/
structure Url where
  base : String
  queryPart : Option String := none
  deriving Repr, DecidableEq

/-- Rendering a `Url` back to a string (`Url::into::<String>`). -/
def Url.render (u : Url) : String :=
  u.base ++ (match u.queryPart with | none => "" | some q => "?" ++ q)

/-- `RequestProfile` (src/config/mod.rs). The method plays no role in the
merge logic and is kept as a plain string. -/
structure RequestProfile where
  method : String := "GET"
  url : Url
  params : Option Json := none
  headers : HeaderMap := []
  body : Option Json := none
  deriving Repr, DecidableEq

/-- `RequestProfile::validate`: `params` and `body`, when present, must be
JSON objects. -/
def RequestProfile.validate (p : RequestProfile) : Except String Unit :=
  match p.params with
  | some v =>
    if v.isObject then
      match p.body with
      | some w => if w.isObject then .ok () else .error "body must be an object"
      | none => .ok ()
    else .error "params must be an object"
  | none =>
    match p.body with
    | some w => if w.isObject then .ok () else .error "body must be an object"
    | none => .ok ()

/-- The header phase of `generate`: insert each header override through
`HeaderName::from_str` / `HeaderValue::from_str`, any failure aborting. -/
def applyHeaderOverrides (h : HeaderMap) :
    List (String × String) → Except GenErr HeaderMap
  | [] => .ok h
  | (k, v) :: rest =>
    match headerNameFromStr k with
    | none => .error .invalidHeaderName
    | some name =>
      match headerValueFromStr v with
      | none => .error .invalidHeaderValue
      | some value => applyHeaderOverrides (hdrInsert h name value) rest

/-- The Content-Type defaulting of `generate`: after the header overrides, a
missing `Content-Type` header is set to `application/json`. (The check sits
inside the `Header` arm of the loop, and the `ExtraArgs` iterator always
yields the `Header` kind, so it runs on every merge.) -/
def defaultContentType (h : HeaderMap) : HeaderMap :=
  if hdrContains h "content-type" then h
  else hdrInsert h "content-type" "application/json"

/-- `serde_json` index-assignment `value[key] = v`: insert/replace on an
object, auto-vivification on `Null`, a panic on any other value. -/
def setKey (j : Json) (key : String) (v : Json) : Except GenErr Json :=
  match j with
  | .obj members => .ok (.obj (Json.objInsert members key v))
  | .null => .ok (.obj [(key, v)])
  | _ => .error .panicked

/-- The query/body phase of `generate`: for each override, `value.parse()?`
(strict JSON parsing, a parse failure aborts the merge) followed by the
index assignment. -/
def applyValueOverrides (j : Json) :
    List (String × String) → Except GenErr Json
  | [] => .ok j
  | (k, v) :: rest =>
    match jsonFromStr v with
    | none => .error .jsonParseError
    | some parsed =>
      match setKey j k parsed with
      | .ok j2 => applyValueOverrides j2 rest
      | .error e => .error e

/-- UTF-8 bytes of a character. -/
def utf8Bytes (c : Char) : List Nat :=
  let n := c.toNat
  if n < 128 then [n]
  else if n < 2048 then [192 + n / 64, 128 + n % 64]
  else if n < 65536 then [224 + n / 4096, 128 + n / 64 % 64, 128 + n % 64]
  else [240 + n / 262144, 128 + n / 4096 % 64, 128 + n / 64 % 64, 128 + n % 64]

/-- Upper-case hex rendering of a byte, two digits. -/
def hexByteUpper (n : Nat) : String :=
  let digit (k : Nat) : Char :=
    if k < 10 then Char.ofNat (48 + k) else Char.ofNat (65 + (k - 10))
  String.mk [digit (n / 16 % 16), digit (n % 16)]

/-- `form_urlencoded` byte serialization: alphanumerics and `*-._` pass
through, a space becomes `+`, every other byte is percent-encoded. -/
def formByteSerialize (s : String) : String :=
  String.join <| s.data.map fun c =>
    if c.isAlphanum || c = '*' || c = '-' || c = '.' || c = '_' then
      String.singleton c
    else if c = ' ' then "+"
    else String.join ((utf8Bytes c).map (fun b => "%" ++ hexByteUpper b))

/-- One `key=value` pair of the form encoding; only scalar values are
serializable (`serde_urlencoded` rejects nested arrays, objects and null). -/
def formPair (k : String) : Json → Except GenErr String
  | .str s => .ok (formByteSerialize k ++ "=" ++ formByteSerialize s)
  | .num n => .ok (formByteSerialize k ++ "=" ++ toString n)
  | .bool true => .ok (formByteSerialize k ++ "=" ++ "true")
  | .bool false => .ok (formByteSerialize k ++ "=" ++ "false")
  | _ => .error .formSerializeError

/-- The members of an object rendered as `k=v` joined by `&`. -/
def formPairs : List (String × Json) → Except GenErr (List String)
  | [] => .ok []
  | (k, v) :: rest =>
    match formPair k v with
    | .ok s =>
      match formPairs rest with
      | .ok ss => .ok (s :: ss)
      | .error e => .error e
    | .error e => .error e

/-- Model of `serde_urlencoded::to_string` applied to a `serde_json::Value`:
a top-level object of scalar values serializes to `k=v` pairs joined by `&`,
anything else is a serialization error. -/
def formUrlEncode : Json → Except GenErr String
  | .obj members =>
    match formPairs members with
    | .ok ss => .ok (String.intercalate "&" ss)
    | .error e => .error e
  | _ => .error .formSerializeError

/-- `RequestProfile::generate` (src/config/mod.rs): clone headers, params and
body (missing params/body default to the empty object), apply the header
overrides and the Content-Type default, apply the query and body overrides
with strict JSON value parsing, then negotiate the encoding from the
Content-Type header. -/
def RequestProfile.generate (p : RequestProfile) (args : ExtraArgs) :
    Except GenErr (HeaderMap × Json × String) :=
  match applyHeaderOverrides p.headers args.headers with
  | .error e => .error e
  | .ok header0 =>
    let header := defaultContentType header0
    match applyValueOverrides (p.params.getD (.obj [])) args.query with
    | .error e => .error e
    | .ok query =>
      match applyValueOverrides (p.body.getD (.obj [])) args.body with
      | .error e => .error e
      | .ok body =>
        match get_content_type header with
        | .error _ => .error .panicked
        | .ok contentType =>
          match contentType with
          | some "application/json" => .ok (header, query, jsonCompact body)
          | some "application/x-www-form-urlencoded" =>
            match formUrlEncode body with
            | .ok s => .ok (header, query, s)
            | .error e => .error e
          | some "multipart/form-data" =>
            match formUrlEncode body with
            | .ok s => .ok (header, query, s)
            | .error e => .error e
          | _ => .error .unsupportedContentType

mutual

/-- `serde_qs` value serialization under a key path: scalars render as
`path=value`, arrays index with `[i]`, nested objects extend the path with
`[key]`. Percent-encoding of the values follows the form byte serializer. -/
def qsSerializeVal (path : String) : Json → List String
  | .str s => [path ++ "=" ++ formByteSerialize s]
  | .num n => [path ++ "=" ++ toString n]
  | .bool true => [path ++ "=" ++ "true"]
  | .bool false => [path ++ "=" ++ "false"]
  | .null => [path ++ "="]
  | .arr items => qsSerializeArr path 0 items
  | .obj members => qsSerializeObj path members

def qsSerializeArr (path : String) (i : Nat) : List Json → List String
  | [] => []
  | v :: rest =>
      qsSerializeVal (path ++ "[" ++ toString i ++ "]") v ++
        qsSerializeArr path (i + 1) rest

def qsSerializeObj (path : String) : List (String × Json) → List String
  | [] => []
  | (k, v) :: rest =>
      qsSerializeVal (path ++ "[" ++ k ++ "]") v ++ qsSerializeObj path rest

end

/-- Model of `serde_qs::to_string` on a top-level object. -/
def qsToString (members : List (String × Json)) : String :=
  String.intercalate "&"
    ((members.map fun kv => qsSerializeVal (formByteSerialize kv.1) kv.2).flatten)

/-- `RequestProfile::get_url` (src/config/mod.rs): re-run the merge; when the
final query object is non-empty, serialize it with `serde_qs` and replace the
URL's query string; `params.as_object().unwrap()` panics when the merged
params value is not an object. -/
def RequestProfile.get_url (p : RequestProfile) (args : ExtraArgs) :
    Except GenErr String :=
  match p.generate args with
  | .error e => .error e
  | .ok (_, params, _) =>
    match params with
    | .obj members =>
      if members.isEmpty then .ok p.url.render
      else .ok { p.url with queryPart := some (qsToString members) }.render
    | _ => .error .panicked

/-! ## Response reduction (src/config/mod.rs). -/

/-- A received HTTP response, as far as the reducer observes it: the `Debug`
rendering of its protocol version (for example "HTTP/1.1"), the `Display`
rendering of its status (for example "200 OK"), its header map in received
order, and its body read as text. -/
structure Response where
  versionDbg : String
  statusDisp : String
  headers : HeaderMap
  bodyText : String
  deriving Repr, DecidableEq

/-- Modelled from the spec: `ResponseProfile` lives in `src/config/xdiff.rs`,
which is not part of the available sources; per the spec it is a pair of
skip-lists: header names and top-level body keys excluded before
comparison. -/
structure ResponseProfile where
  skip_headers : List String := []
  skip_body : List String := []
  deriving Repr, DecidableEq

/-- `get_status_text`: `format!("{:?} {}", res.version(), res.status())` —
note, without a trailing newline. -/
def get_status_text (res : Response) : String :=
  res.versionDbg ++ " " ++ res.statusDisp

/-- One lower-case hexadecimal digit character. -/
def hexDigitLower (k : Nat) : Char :=
  if k < 10 then Char.ofNat (48 + k) else Char.ofNat (97 + (k - 10))

/-- Hexadecimal digits of `n`, most significant first (empty for zero); the
fuel bounds the number of digits and eight covers every character code. -/
def hexLowerAux : Nat → Nat → List Char
  | 0, _ => []
  | _ + 1, 0 => []
  | fuel + 1, n => hexLowerAux fuel (n / 16) ++ [hexDigitLower (n % 16)]

/-- Variable-length lower-case hexadecimal rendering of `n` (as `{:x}`). -/
def hexLower (n : Nat) : String :=
  if n = 0 then "0" else String.mk (hexLowerAux 8 n)

/-- The `Debug` rendering of a `HeaderValue`: surrounding quotes, a quote
escaped as `\"`, any non-visible-ASCII character as `\x` followed by its
lower-case hex code. -/
def headerValueDebug (v : String) : String :=
  "\"" ++
    String.join (v.data.map fun c =>
      if c = '"' then "\\\""
      else if isVisibleAscii c then String.singleton c
      else "\\x" ++ hexLower c.toNat) ++ "\""

/-- `get_header_text`: every header whose (lower-case) name is not in
`skip_headers`, rendered as `name:debug-quoted-value` on its own line in
received order, followed by one blank line. -/
def get_header_text (res : Response) (skip_headers : List String) : String :=
  (res.headers.foldl
    (fun output kv =>
      if skip_headers.contains kv.1 then output
      else output ++ kv.1 ++ ":" ++ headerValueDebug kv.2 ++ "\n")
    "") ++ "\n"

/-- `serde_json` `Map::remove` under the spec's ordering model: the entry with
the given key is removed and the remaining entries keep their order.
(Modelled from the spec: the crate feature selection fixing the map
representation is outside the available sources; the spec prescribes
order-preserving objects.) -/
def removeKey (members : List (String × Json)) (key : String) :
    List (String × Json) :=
  members.filter (fun kv => kv.1 ≠ key)

/-- `filter_json`: parse the text as JSON, remove every `skip_body` key from a
top-level object (any other top-level shape is left as is), and pretty-print
the result. A parse failure is the `MalformedBody` error. -/
def filter_json (text : String) (skip_body : List String) :
    Except GenErr String :=
  match jsonFromStr text with
  | none => .error .jsonParseError
  | some json =>
    let filtered :=
      match json with
      | .obj members => Json.obj (skip_body.foldl removeKey members)
      | other => other
    .ok (jsonToStringPretty filtered)

/-- `get_body_text`: inspect the content type (through `get_content_type`,
hence with its panic) and filter JSON bodies; any other content type passes
the body text through verbatim. -/
def get_body_text (res : Response) (skip_body : List String) :
    Except GenErr String :=
  match get_content_type res.headers with
  | .error _ => .error .panicked
  | .ok ct =>
    match ct with
    | some s => if s = "application/json" then filter_json res.bodyText skip_body
                else .ok res.bodyText
    | none => .ok res.bodyText

/-- `ResponseExt::get_text`: the reduced response text — the status text,
directly followed (no separating newline) by the header text, followed by the
body text. -/
def get_text (res : Response) (profile : ResponseProfile) :
    Except GenErr String :=
  match get_body_text res profile.skip_body with
  | .error e => .error e
  | .ok bodyText =>
      .ok (get_status_text res ++ get_header_text res profile.skip_headers ++ bodyText)

/-! ## Diff engine (src/utils.rs, over a model of the `similar` crate's
line diff: an LCS edit script, `grouped_ops`, and per-line changes; console
styling is rendered with colors disabled, and intra-line emphasis — a pure
presentation attribute — at full-line granularity). -/

/-- Split a text into lines, each keeping its trailing newline; a final
unterminated line is kept without one. -/
def splitLinesAux : List Char → List Char → List String
  | [], acc => if acc.isEmpty then [] else [String.mk acc.reverse]
  | c :: cs, acc =>
    if c = '\n' then String.mk (c :: acc).reverse :: splitLinesAux cs []
    else splitLinesAux cs (c :: acc)

/-- The lines of a text with newline terminators retained. -/
def splitLinesKeepEnds (s : String) : List String :=
  splitLinesAux s.data []

/-- The tag of a diff operation or of a rendered change. -/
inductive DTag where
  | equal : DTag
  | delete : DTag
  | insert : DTag
  deriving Repr, DecidableEq

/-- The number of changed (non-equal) entries of a tagged line list. -/
def diffCost (entries : List (DTag × String)) : Nat :=
  (entries.filter (fun e => e.1 ≠ DTag.equal)).length

/-- A minimal line edit script between two line lists: matching heads are
taken as equal, otherwise the cheaper of deleting the first old line or
inserting the first new line is chosen. Models the `similar` crate's line
diff at the level the rendering observes. -/
def lcsDiff : List String → List String → List (DTag × String)
  | [], ys => ys.map (fun y => (DTag.insert, y))
  | xs, [] => xs.map (fun x => (DTag.delete, x))
  | x :: xs, y :: ys =>
    if x = y then (DTag.equal, x) :: lcsDiff xs ys
    else
      let viaDelete := lcsDiff xs (y :: ys)
      let viaInsert := lcsDiff (x :: xs) ys
      if diffCost viaDelete ≤ diffCost viaInsert then (DTag.delete, x) :: viaDelete
      else (DTag.insert, y) :: viaInsert
  termination_by xs ys => xs.length + ys.length
  decreasing_by all_goals simp_arith

/-- A run-length diff operation (the `similar` crate's `DiffOp`): a tag, the
starting indices in the old and new line lists, and the run length. -/
structure DiffOp where
  tag : DTag
  oldIndex : Nat
  newIndex : Nat
  len : Nat
  deriving Repr, DecidableEq

/-- Advance of the two line cursors over one operation. -/
def opAdvance (t : DTag) (len i j : Nat) : Nat × Nat :=
  match t with
  | .equal => (i + len, j + len)
  | .delete => (i + len, j)
  | .insert => (i, j + len)

/-- Merge a tagged line list into run-length operations with line indices. -/
def toOps : List (DTag × String) → Nat → Nat → List DiffOp
  | [], _, _ => []
  | (t, _) :: rest, i, j =>
    let runLen := 1 + (rest.takeWhile (fun e => e.1 = t)).length
    let rest2 := rest.dropWhile (fun e => e.1 = t)
    let next := opAdvance t runLen i j
    ⟨t, i, j, runLen⟩ :: toOps rest2 next.1 next.2
  termination_by entries _ _ => entries.length
  decreasing_by
    simp only [List.length_cons, Nat.lt_succ_iff]
    exact List.IsSuffix.length_le (List.dropWhile_suffix _)

/-- The diff operations of two line lists. -/
def diffOps (oldLines newLines : List String) : List DiffOp :=
  toOps (lcsDiff oldLines newLines) 0 0

/-- `grouped_ops`: shrink a leading equal operation to its last `n` lines. -/
def trimFirstOp (n : Nat) : List DiffOp → List DiffOp
  | [] => []
  | op :: rest =>
    if op.tag = .equal then
      let offset := op.len - n
      ⟨.equal, op.oldIndex + offset, op.newIndex + offset, op.len - offset⟩ :: rest
    else op :: rest

/-- `grouped_ops`: cap a trailing equal operation at `n` lines. -/
def trimLastOp (n : Nat) : List DiffOp → List DiffOp
  | [] => []
  | [op] =>
    if op.tag = .equal then [⟨.equal, op.oldIndex, op.newIndex, min op.len n⟩]
    else [op]
  | op :: op2 :: rest => op :: trimLastOp n (op2 :: rest)

/-- The grouping loop of `grouped_ops`: an equal operation longer than `2 n`
closes the pending group (appending `n` lines of trailing context) and opens
a new one with `n` lines of leading context; the final pending group is kept
unless it is empty or a single equal operation. -/
def groupLoop (n : Nat) (pending : List DiffOp) (acc : List (List DiffOp)) :
    List DiffOp → List (List DiffOp)
  | [] =>
    match pending with
    | [] => acc
    | [op] => if op.tag = .equal then acc else acc ++ [pending]
    | _ => acc ++ [pending]
  | op :: rest =>
    if op.tag = .equal ∧ n * 2 < op.len then
      let acc2 :=
        if pending.isEmpty then acc
        else acc ++ [pending ++ [⟨.equal, op.oldIndex, op.newIndex, n⟩]]
      groupLoop n [⟨.equal, op.oldIndex + op.len - n, op.newIndex + op.len - n, n⟩]
        acc2 rest
    else groupLoop n (pending ++ [op]) acc rest

/-- `TextDiff::grouped_ops(n)` (the `similar` crate): hunks of operations
with at most `n` lines of context at either end. -/
def groupedOps (n : Nat) (ops : List DiffOp) : List (List DiffOp) :=
  match ops with
  | [] => []
  | _ => groupLoop n [] [] (trimLastOp n (trimFirstOp n ops))

/-- A rendered change (the `similar` crate's per-line `Change`): its tag, the
0-based line numbers in the old and in the new text (absent on the side the
line does not exist on), and the line's text. -/
structure Change where
  tag : DTag
  oldIdx : Option Nat
  newIdx : Option Nat
  value : String
  deriving Repr, DecidableEq

/-- The per-line changes of one operation (`iter_inline_changes` at full-line
granularity): an equal run carries both line numbers, a delete run only old
line numbers, an insert run only new line numbers. -/
def changesOfOp (oldLines newLines : List String) (op : DiffOp) : List Change :=
  match op.tag with
  | .equal =>
      (List.range op.len).map fun k =>
        ⟨.equal, some (op.oldIndex + k), some (op.newIndex + k),
          oldLines.getD (op.oldIndex + k) ""⟩
  | .delete =>
      (List.range op.len).map fun k =>
        ⟨.delete, some (op.oldIndex + k), none, oldLines.getD (op.oldIndex + k) ""⟩
  | .insert =>
      (List.range op.len).map fun k =>
        ⟨.insert, none, some (op.newIndex + k), newLines.getD (op.newIndex + k) ""⟩

/-- All changes of a hunk, operation by operation. -/
def groupChanges (oldLines newLines : List String) (g : List DiffOp) : List Change :=
  (g.map (changesOfOp oldLines newLines)).flatten

/-- The `Line` wrapper's `Display`: the 1-based line number left-aligned in a
four-character column, or four spaces when the line is absent. -/
def lineColumn : Option Nat → String
  | some idx =>
    let s := toString (idx + 1)
    s ++ String.mk (List.replicate (4 - s.length) ' ')
  | none => "    "

/-- The sign column: `-` for a delete, `+` for an insert, a space for an
equal line. -/
def signOf : DTag → String
  | .delete => "-"
  | .insert => "+"
  | .equal => " "

/-- One rendered diff line: both line-number columns, a ` |` divider, the
sign, and the line content (a final line missing its newline gets one). -/
def renderChange (c : Change) : String :=
  lineColumn c.oldIdx ++ lineColumn c.newIdx ++ " |" ++ signOf c.tag ++ c.value ++
    (if c.value.endsWith "\n" then "" else "\n")

/-- One rendered hunk. -/
def renderGroup (oldLines newLines : List String) (g : List DiffOp) : String :=
  joinStrs ((groupChanges oldLines newLines g).map renderChange)

/-- The separator emitted between hunks: `{:-^80}` of `"-"`, eighty dashes
(and no newline). -/
def hunkSeparator : String :=
  String.mk (List.replicate 80 '-')

/-- The enumerated rendering loop of `diff_text`: every hunk after the first
is preceded by the separator. -/
def renderGroupsAux (render : List DiffOp → String) :
    Nat → List (List DiffOp) → String
  | _, [] => ""
  | idx, g :: rest =>
      (if 0 < idx then hunkSeparator else "") ++ render g ++
        renderGroupsAux render (idx + 1) rest

/-- `diff_text` (src/utils.rs): group the line diff of the two texts into
hunks with three lines of context and render them, separator-joined, one
line per change with line-number columns, sign and content. -/
def diff_text (text1 text2 : String) : String :=
  let oldLines := splitLinesKeepEnds text1
  let newLines := splitLinesKeepEnds text2
  renderGroupsAux (renderGroup oldLines newLines) 0
    (groupedOps 3 (diffOps oldLines newLines))

/-! ## Shared lemmas -/

theorem takeWhile_append_all {α} (p : α → Bool) (xs ys : List α)
    (h : ∀ x ∈ xs, p x = true) :
    (xs ++ ys).takeWhile p = xs ++ ys.takeWhile p := by
  induction xs with
  | nil => simp
  | cons a l ih =>
    have ha : p a = true := h a (by simp)
    simp only [List.cons_append, List.takeWhile_cons, ha]
    exact congrArg (List.cons a) (ih (fun x hx => h x (by simp [hx])))

theorem dropWhile_append_all {α} (p : α → Bool) (xs ys : List α)
    (h : ∀ x ∈ xs, p x = true) :
    (xs ++ ys).dropWhile p = ys.dropWhile p := by
  induction xs with
  | nil => simp
  | cons a l ih =>
    have ha : p a = true := h a (by simp)
    simp only [List.cons_append, List.dropWhile_cons, ha]
    exact ih (fun x hx => h x (by simp [hx]))

theorem hdrGet_cons (k1 w1 k : String) (rest : HeaderMap) :
    hdrGet ((k1, w1) :: rest) k = if k1 = k then some w1 else hdrGet rest k := by
  by_cases hk : k1 = k
  · simp [hdrGet, List.find?, hk]
  · simp [hdrGet, List.find?, hk]

theorem hdrContains_cons (k1 w1 k : String) (rest : HeaderMap) :
    hdrContains ((k1, w1) :: rest) k = (decide (k1 = k) || hdrContains rest k) := by
  simp [hdrContains]

theorem hdrInsert_cons (k1 w1 key v : String) (rest : HeaderMap) :
    hdrInsert ((k1, w1) :: rest) key v =
      if k1 = key then (k1, v) :: rest else (k1, w1) :: hdrInsert rest key v := by
  rfl

theorem hdrGet_hdrInsert_self (h : HeaderMap) (k v : String) :
    hdrGet (hdrInsert h k v) k = some v := by
  induction h with
  | nil => simp [hdrInsert, hdrGet, List.find?]
  | cons kv rest ih =>
    obtain ⟨k1, w1⟩ := kv
    by_cases hk : k1 = k
    · rw [hdrInsert_cons, if_pos hk, hdrGet_cons, if_pos hk]
    · rw [hdrInsert_cons, if_neg hk, hdrGet_cons, if_neg hk]
      exact ih

theorem hdrContains_hdrInsert_self (h : HeaderMap) (k v : String) :
    hdrContains (hdrInsert h k v) k = true := by
  induction h with
  | nil => simp [hdrInsert, hdrContains]
  | cons kv rest ih =>
    obtain ⟨k1, w1⟩ := kv
    by_cases hk : k1 = k
    · rw [hdrInsert_cons, if_pos hk, hdrContains_cons]
      simp [hk]
    · rw [hdrInsert_cons, if_neg hk, hdrContains_cons]
      simp [ih]

theorem hdrContains_of_hdrGet (h : HeaderMap) (k v : String)
    (hget : hdrGet h k = some v) : hdrContains h k = true := by
  induction h with
  | nil => simp [hdrGet] at hget
  | cons kv rest ih =>
    obtain ⟨k1, w1⟩ := kv
    rw [hdrGet_cons] at hget
    by_cases hk : k1 = k
    · rw [hdrContains_cons]
      simp [hk]
    · rw [if_neg hk] at hget
      rw [hdrContains_cons]
      simp [ih hget]

/-! ## C10 -/

/-- C10: `get_content_type` returns `None` when no `Content-Type` header is
present and otherwise the portion of the header value before the first `;`
(that portion contains no `;` and is an initial segment of the value); but
when the value contains characters that are not visible ASCII, the unwrapped
`to_str` makes it panic instead of returning `None` or an error value. -/
theorem get_content_type_spec (headers : HeaderMap) :
    (hdrGet headers "content-type" = none → get_content_type headers = .ok none)
  ∧ (∀ v, hdrGet headers "content-type" = some v →
      v.data.all isVisibleAscii = true →
        get_content_type headers =
          .ok (some (String.mk (v.data.takeWhile (fun c => c ≠ ';'))))
      ∧ (∀ c ∈ v.data.takeWhile (fun c => c ≠ ';'), ¬ c = ';')
      ∧ v.data.takeWhile (fun c => c ≠ ';') ++ v.data.dropWhile (fun c => c ≠ ';')
          = v.data)
  ∧ (∀ v, hdrGet headers "content-type" = some v →
      v.data.all isVisibleAscii = false → get_content_type headers = .error ()) := by
  refine ⟨?_, ?_, ?_⟩
  · intro hnone
    simp [get_content_type, hnone]
  · intro v hv hascii
    have hvstr : headerValueToStr v = some v := by
      unfold headerValueToStr
      rw [hascii]
      simp
    refine ⟨?_, ?_, ?_⟩
    · simp only [get_content_type, hv, hvstr]
    · intro c hc
      simpa using List.mem_takeWhile_imp hc
    · exact List.takeWhile_append_dropWhile (p := fun c => decide (c ≠ ';')) (l := v.data)
  · intro v hv hascii
    have hvstr : headerValueToStr v = none := by
      unfold headerValueToStr
      rw [hascii]
      simp
    simp only [get_content_type, hv, hvstr]

/-- Witness for C10 at concrete header maps. -/
theorem get_content_type_spec_witness :
    get_content_type [("content-type", "text/plain; q=1")] = .ok (some "text/plain")
  ∧ get_content_type [("content-type", "café")] = .error ()
  ∧ get_content_type [("server", "x")] = .ok none := by
  refine ⟨?_, ?_, ?_⟩
  · have h := ((get_content_type_spec [("content-type", "text/plain; q=1")]).2.1
      "text/plain; q=1" (by decide) (by decide)).1
    rw [h]; decide
  · exact (get_content_type_spec [("content-type", "café")]).2.2 "café"
      (by decide) (by decide)
  · exact (get_content_type_spec [("server", "x")]).1 (by decide)

/-! ## C5 -/

/-- C5: `parse_key_value` splits on the first `=` and trims both parts; it
fails with `InvalidOverride` exactly when no `=` is present, when the trimmed
key is empty, or when the key's first character is not `%`, `@` or
alphabetic; on success the sigil is stripped and `%` yields a Header
override, `@` a Body override and an alphabetic first character a Query
override. -/
theorem parse_key_value_spec :
    (∀ s : String, (∀ c ∈ s.data, c ≠ '=') →
      parse_key_value s = .error "Invalid key value pair")
  ∧ (∀ kChars vChars : List Char, (∀ c ∈ kChars, c ≠ '=') →
      parse_key_value (String.mk (kChars ++ '=' :: vChars)) =
        match (strTrim (String.mk kChars)).data with
        | [] => .error "Invalid key value pair"
        | c :: tailChars =>
          if c = '%' then
            .ok ⟨.Header, String.mk tailChars, strTrim (String.mk vChars)⟩
          else if c = '@' then
            .ok ⟨.Body, String.mk tailChars, strTrim (String.mk vChars)⟩
          else if c.isAlpha then
            .ok ⟨.Query, strTrim (String.mk kChars), strTrim (String.mk vChars)⟩
          else .error "Invalid key value pair") := by
  constructor
  · intro s hs
    have hdrop : s.data.dropWhile (fun c => c ≠ '=') = [] := by
      rw [List.dropWhile_eq_nil_iff]
      intro x hx
      simpa using hs x hx
    simp only [parse_key_value, hdrop]
  · intro kChars vChars hk
    have hkp : ∀ c ∈ kChars, (fun c => decide (c ≠ '=')) c = true := by
      intro c hc
      simpa using hk c hc
    have hdata : (String.mk (kChars ++ '=' :: vChars)).data = kChars ++ '=' :: vChars := rfl
    have hdrop : (kChars ++ '=' :: vChars).dropWhile (fun c => c ≠ '=') = '=' :: vChars := by
      rw [dropWhile_append_all _ _ _ hkp]
      simp [List.dropWhile_cons]
    have htake : (kChars ++ '=' :: vChars).takeWhile (fun c => c ≠ '=') = kChars := by
      rw [takeWhile_append_all _ _ _ hkp]
      simp [List.takeWhile_cons]
    simp only [parse_key_value, hdata, hdrop, htake]

/-- Witness for C5 at concrete override tokens. -/
theorem parse_key_value_spec_witness :
    parse_key_value "%Content-Type=application/json" =
      .ok ⟨.Header, "Content-Type", "application/json"⟩
  ∧ parse_key_value "@name= misky " = .ok ⟨.Body, "name", "misky"⟩
  ∧ parse_key_value "id=1" = .ok ⟨.Query, "id", "1"⟩
  ∧ parse_key_value "#x=1" = .error "Invalid key value pair"
  ∧ parse_key_value " =1" = .error "Invalid key value pair"
  ∧ parse_key_value "novalue" = .error "Invalid key value pair" := by
  have h1 := parse_key_value_spec.2 "%Content-Type".data "application/json".data
    (by decide)
  have h2 := parse_key_value_spec.2 "@name".data " misky ".data (by decide)
  have h3 := parse_key_value_spec.2 "id".data "1".data (by decide)
  have h4 := parse_key_value_spec.2 "#x".data "1".data (by decide)
  have h5 := parse_key_value_spec.2 " ".data "1".data (by decide)
  have h6 := parse_key_value_spec.1 "novalue" (by decide)
  refine ⟨?_, ?_, ?_, ?_, ?_, ?_⟩
  · exact h1.trans (by decide)
  · exact h2.trans (by decide)
  · exact h3.trans (by decide)
  · exact h4.trans (by decide)
  · exact h5.trans (by decide)
  · exact h6

/-! ## C2 -/

/-- The header loop of `get_header_text` as a closed form: the non-skipped
headers, in received order, each rendered on its own line. -/
theorem get_header_text_eq (res : Response) (skip : List String) :
    get_header_text res skip =
      joinStrs ((res.headers.filter (fun kv => !skip.contains kv.1)).map
        (fun kv => kv.1 ++ ":" ++ headerValueDebug kv.2 ++ "\n")) ++ "\n" := by
  unfold get_header_text
  have main : ∀ (l : HeaderMap) (acc : String),
      l.foldl (fun output kv =>
        if skip.contains kv.1 then output
        else output ++ kv.1 ++ ":" ++ headerValueDebug kv.2 ++ "\n") acc =
      acc ++ joinStrs ((l.filter (fun kv => !skip.contains kv.1)).map
        (fun kv => kv.1 ++ ":" ++ headerValueDebug kv.2 ++ "\n")) := by
    intro l
    induction l with
    | nil => intro acc; simp [joinStrs]
    | cons kv rest ih =>
      intro acc
      by_cases hc : skip.contains kv.1
      · simp only [List.foldl_cons, if_pos hc, List.filter_cons, hc]
        simp only [Bool.not_true]
        exact ih acc
      · have hc' : skip.contains kv.1 = false := by simpa using hc
        simp only [List.foldl_cons, if_neg hc, List.filter_cons, hc']
        simp only [Bool.not_false, if_pos]
        rw [ih]
        simp [joinStrs, String.append_assoc]
  rw [main]
  simp

/-- Counterexample to C2 as stated: the status line is not followed by a
newline, so the first rendered header continues the same output line. -/
theorem get_text_status_line_counterexample :
    get_text ⟨"HTTP/1.1", "200 OK", [("server", "mock")], "hello"⟩ ⟨[], []⟩ =
      .ok "HTTP/1.1 200 OKserver:\"mock\"\n\nhello"
  ∧ List.isPrefixOf "HTTP/1.1 200 OK\n".data
      "HTTP/1.1 200 OKserver:\"mock\"\n\nhello".data = false := by
  exact ⟨by decide, by decide⟩

/-- C2 as amended: the reduced response text is the status text (protocol
version, space, status code — with no trailing newline), directly followed by
the non-skipped headers in received order, each as `name:debug-quoted-value`
on its own line, then one blank line, and only then the body text. -/
theorem get_text_layout (res : Response) (prof : ResponseProfile) (bt : String)
    (hbody : get_body_text res prof.skip_body = .ok bt) :
    get_text res prof = .ok (res.versionDbg ++ " " ++ res.statusDisp ++
      (joinStrs ((res.headers.filter (fun kv => !prof.skip_headers.contains kv.1)).map
        (fun kv => kv.1 ++ ":" ++ headerValueDebug kv.2 ++ "\n")) ++ "\n") ++ bt) := by
  unfold get_text
  rw [hbody, get_header_text_eq]
  rfl

/-- Witness for C2 (amended) at a concrete response. -/
theorem get_text_layout_witness :
    get_body_text ⟨"HTTP/1.1", "200 OK", [("a", "1"), ("b", "2")], "hello"⟩ [] = .ok "hello"
  ∧ get_text ⟨"HTTP/1.1", "200 OK", [("a", "1"), ("b", "2")], "hello"⟩ ⟨["a"], []⟩ =
      .ok "HTTP/1.1 200 OKb:\"2\"\n\nhello" := by
  refine ⟨by decide, ?_⟩
  have h := get_text_layout ⟨"HTTP/1.1", "200 OK", [("a", "1"), ("b", "2")], "hello"⟩
    ⟨["a"], []⟩ "hello" (by decide)
  exact h.trans (by decide)

/-! ## C6 -/

/-- The removal loop of `filter_json` as a closed form: removing every key in
`skips` keeps exactly the members whose key is not in `skips`, in their
original order. -/
theorem foldl_removeKey (skips : List String) (members : List (String × Json)) :
    skips.foldl removeKey members =
      members.filter (fun kv => !skips.contains kv.1) := by
  induction skips generalizing members with
  | nil => simp
  | cons k ks ih =>
    simp only [List.foldl_cons]
    rw [ih]
    unfold removeKey
    rw [List.filter_filter]
    apply List.filter_congr
    intro kv _
    simp only [List.contains_cons, Bool.not_or]
    rw [Bool.and_comm]
    congr 1
    by_cases h : kv.1 = k
    · simp [h]
    · simp [h, Ne.symm h]

/-- C6: for a response whose content type is `application/json`, reduction
parses the body as JSON, removes exactly the `skip_body` keys from the
top-level object only — every surviving member is kept unchanged (so nested
object keys with the same names are preserved), in original order — and
re-renders the result as pretty-printed JSON. -/
theorem get_body_text_filters_top_level (res : Response) (skip : List String)
    (members : List (String × Json))
    (hct : get_content_type res.headers = .ok (some "application/json"))
    (hbody : jsonFromStr res.bodyText = some (.obj members)) :
    get_body_text res skip =
      .ok (jsonToStringPretty (.obj (members.filter (fun kv => !skip.contains kv.1))))
  ∧ (∀ k v, (k, v) ∈ members → ¬ skip.contains k = true →
      (k, v) ∈ members.filter (fun kv => !skip.contains kv.1))
  ∧ (∀ kv ∈ members.filter (fun kv => !skip.contains kv.1), kv ∈ members) := by
  refine ⟨?_, ?_, ?_⟩
  · unfold get_body_text
    simp only [hct]
    rw [if_pos trivial]
    unfold filter_json
    simp only [hbody]
    rw [foldl_removeKey]
  · intro k v hm hs
    rw [List.mem_filter]
    exact ⟨hm, by simpa using hs⟩
  · intro kv hkv
    exact (List.mem_filter.mp hkv).1

/-- Witness for C6 at a concrete JSON response: the top-level `id` is
removed, the nested `id` survives. -/
theorem get_body_text_filters_top_level_witness :
    get_body_text
      ⟨"HTTP/1.1", "200 OK", [("content-type", "application/json")],
        "\x7b\"id\":1,\"n\":\x7b\"id\":2\x7d\x7d"⟩ ["id"] =
      .ok "\x7b\n  \"n\": \x7b\n    \"id\": 2\n  \x7d\n\x7d" := by
  have h := (get_body_text_filters_top_level
    ⟨"HTTP/1.1", "200 OK", [("content-type", "application/json")],
      "\x7b\"id\":1,\"n\":\x7b\"id\":2\x7d\x7d"⟩ ["id"]
    [("id", .num 1), ("n", .obj [("id", .num 2)])]
    (by decide) rfl).1
  exact h.trans (by decide)

/-! ## Shared lemmas on the merge phases -/

/-- When every override value parses as JSON, the value phase folds the
parsed values into the object by insert-or-replace. -/
theorem applyValueOverrides_all_parse (members : List (String × Json))
    (ovs : List (String × String))
    (h : ∀ kv ∈ ovs, (jsonFromStr kv.2).isSome = true) :
    applyValueOverrides (.obj members) ovs =
      .ok (.obj (ovs.foldl
        (fun acc kv => Json.objInsert acc kv.1 ((jsonFromStr kv.2).getD .null))
        members)) := by
  induction ovs generalizing members with
  | nil => rfl
  | cons kv rest ih =>
    obtain ⟨k, v⟩ := kv
    obtain ⟨j, hj⟩ := Option.isSome_iff_exists.mp (h (k, v) (by simp))
    simp only [applyValueOverrides, hj, setKey, List.foldl_cons]
    rw [ih (Json.objInsert members k j)
      (fun kv2 hkv2 => h kv2 (List.mem_cons_of_mem _ hkv2))]
    simp [hj]

/-- The first override value that fails to parse aborts the value phase with
the JSON parse error. -/
theorem applyValueOverrides_first_fail (members : List (String × Json))
    (pre post : List (String × String)) (k v : String)
    (hpre : ∀ kv ∈ pre, (jsonFromStr kv.2).isSome = true)
    (hv : jsonFromStr v = none) :
    applyValueOverrides (.obj members) (pre ++ (k, v) :: post) =
      .error .jsonParseError := by
  induction pre generalizing members with
  | nil =>
    simp only [List.nil_append, applyValueOverrides, hv]
  | cons kv0 rest ih =>
    obtain ⟨k0, v0⟩ := kv0
    obtain ⟨j, hj⟩ := Option.isSome_iff_exists.mp (hpre (k0, v0) (by simp))
    simp only [List.cons_append, applyValueOverrides, hj, setKey]
    exact ih _ (fun kv hkv => hpre kv (by simp [hkv]))

/-- `generate` with no overrides, unfolded to its content-type dispatch. -/
theorem generate_empty_args (p : RequestProfile) :
    p.generate {} =
      match get_content_type (defaultContentType p.headers) with
      | .error _ => .error .panicked
      | .ok ct =>
        match ct with
        | some "application/json" =>
            .ok (defaultContentType p.headers, p.params.getD (.obj []),
              jsonCompact (p.body.getD (.obj [])))
        | some "application/x-www-form-urlencoded" =>
            match formUrlEncode (p.body.getD (.obj [])) with
            | .ok s => .ok (defaultContentType p.headers, p.params.getD (.obj []), s)
            | .error e => .error e
        | some "multipart/form-data" =>
            match formUrlEncode (p.body.getD (.obj [])) with
            | .ok s => .ok (defaultContentType p.headers, p.params.getD (.obj []), s)
            | .error e => .error e
        | _ => .error .unsupportedContentType := rfl

/-! ## C1 -/

/-- Counterexample to C1 as stated: the body override `name=misky` does not
fall back to the string `"misky"` — the merge fails with a JSON parse
error. -/
theorem generate_misky_counterexample :
    RequestProfile.generate { url := { base := "http://localhost/todo" } }
      { body := [("name", "misky")] } = .error .jsonParseError := by
  decide

/-- C1 as amended: the merge stores each query- and body-override value as
the JSON value it parses to (`id=1` yields the number `1`, never the string
`"1"`); a value that is not valid JSON (such as `misky`) does not fall back
to a plain string — the merge fails with a parse error at the first such
value. -/
theorem generate_parses_override_values :
    jsonFromStr "1" = some (.num 1)
  ∧ jsonFromStr "misky" = none
  ∧ (∀ (members : List (String × Json)) (ovs : List (String × String)),
      ((∀ kv ∈ ovs, (jsonFromStr kv.2).isSome = true) →
        applyValueOverrides (.obj members) ovs =
          .ok (.obj (ovs.foldl
            (fun acc kv => Json.objInsert acc kv.1 ((jsonFromStr kv.2).getD .null))
            members)))
    ∧ (∀ pre post k v, ovs = pre ++ (k, v) :: post →
        (∀ kv ∈ pre, (jsonFromStr kv.2).isSome = true) → jsonFromStr v = none →
        applyValueOverrides (.obj members) ovs = .error .jsonParseError))
  ∧ (∀ (p : RequestProfile) (qovs bovs : List (String × String)),
      p.headers = [] → p.params = none → p.body = none →
      (∀ kv ∈ qovs ++ bovs, (jsonFromStr kv.2).isSome = true) →
      p.generate { headers := [], query := qovs, body := bovs } =
        .ok ([("content-type", "application/json")],
          .obj (qovs.foldl
            (fun acc kv => Json.objInsert acc kv.1 ((jsonFromStr kv.2).getD .null)) []),
          jsonCompact (.obj (bovs.foldl
            (fun acc kv => Json.objInsert acc kv.1 ((jsonFromStr kv.2).getD .null)) [])))) := by
  refine ⟨rfl, rfl, ?_, ?_⟩
  · intro members ovs
    constructor
    · exact applyValueOverrides_all_parse members ovs
    · intro pre post k v hsplit hpre hv
      rw [hsplit]
      exact applyValueOverrides_first_fail members pre post k v hpre hv
  · intro p qovs bovs hh hp hb hparse
    unfold RequestProfile.generate
    rw [hh, hp, hb]
    have hq := applyValueOverrides_all_parse [] qovs
      (fun kv hkv => hparse kv (by simp [hkv]))
    have hbv := applyValueOverrides_all_parse [] bovs
      (fun kv hkv => hparse kv (by simp [hkv]))
    simp only [applyHeaderOverrides, Option.getD]
    rw [hq, hbv]
    rfl

/-- Witness for C1 (amended) at concrete overrides. -/
theorem generate_parses_override_values_witness :
    RequestProfile.generate { url := { base := "http://localhost/todo" } }
      { query := [("id", "1")] } =
      .ok ([("content-type", "application/json")],
        .obj [("id", .num 1)], "\x7b\x7d")
  ∧ applyValueOverrides (.obj []) [("name", "misky")] = .error .jsonParseError := by
  constructor
  · have h := generate_parses_override_values.2.2.2
      { url := { base := "http://localhost/todo" } } [("id", "1")] []
      rfl rfl rfl (by decide)
    exact h.trans (by rfl)
  · exact (generate_parses_override_values.2.2.1 [] [("name", "misky")]).2
      [] [] "name" "misky" rfl (by simp) rfl

/-! ## C3 -/

/-- Counterexample to C3 as stated: with a body whose top-level value is not
a scalar, merging with the override `%Content-Type=application/x-www-form-urlencoded`
does not produce form-encoded body text — it fails with the form
serialization error (it still never produces JSON). -/
theorem content_type_override_form_error_counterexample :
    RequestProfile.generate
      { url := { base := "http://h/t" },
        body := some (.obj [("a", .obj [("b", .num 1)])]) }
      { headers := [("Content-Type", "application/x-www-form-urlencoded")] } =
      .error .formSerializeError := by
  decide

/-- C3 as amended: the `application/json` default is applied only when no
`Content-Type` header is present after all header overrides, so an explicit
override always wins: with the override
`%Content-Type=application/x-www-form-urlencoded` the merged header map
carries the form content type, negotiation follows it, and the merge result
is the form encoding of the merged body (or its serialization error) — never
JSON. -/
theorem content_type_override_wins (p : RequestProfile)
    (qovs bovs : List (String × String)) :
    (∀ h : HeaderMap,
        (hdrContains h "content-type" = true → defaultContentType h = h)
      ∧ (hdrContains h "content-type" = false →
          defaultContentType h = hdrInsert h "content-type" "application/json"))
  ∧ applyHeaderOverrides p.headers
      [("Content-Type", "application/x-www-form-urlencoded")] =
      .ok (hdrInsert p.headers "content-type" "application/x-www-form-urlencoded")
  ∧ defaultContentType
      (hdrInsert p.headers "content-type" "application/x-www-form-urlencoded") =
      hdrInsert p.headers "content-type" "application/x-www-form-urlencoded"
  ∧ get_content_type
      (hdrInsert p.headers "content-type" "application/x-www-form-urlencoded") =
      .ok (some "application/x-www-form-urlencoded")
  ∧ (∀ q b, applyValueOverrides (p.params.getD (.obj [])) qovs = .ok q →
      applyValueOverrides (p.body.getD (.obj [])) bovs = .ok b →
      p.generate
        { headers := [("Content-Type", "application/x-www-form-urlencoded")],
          query := qovs, body := bovs } =
        match formUrlEncode b with
        | .ok s =>
            .ok (hdrInsert p.headers "content-type"
              "application/x-www-form-urlencoded", q, s)
        | .error e => .error e) := by
  have hins : applyHeaderOverrides p.headers
      [("Content-Type", "application/x-www-form-urlencoded")] =
      .ok (hdrInsert p.headers "content-type" "application/x-www-form-urlencoded") := rfl
  have hdef : defaultContentType
      (hdrInsert p.headers "content-type" "application/x-www-form-urlencoded") =
      hdrInsert p.headers "content-type" "application/x-www-form-urlencoded" := by
    unfold defaultContentType
    rw [if_pos (hdrContains_hdrInsert_self p.headers _ _)]
  have hct : get_content_type
      (hdrInsert p.headers "content-type" "application/x-www-form-urlencoded") =
      .ok (some "application/x-www-form-urlencoded") := by
    unfold get_content_type
    rw [hdrGet_hdrInsert_self]
    rfl
  refine ⟨?_, hins, hdef, hct, ?_⟩
  · intro h
    constructor
    · intro hc
      unfold defaultContentType
      rw [if_pos hc]
    · intro hc
      unfold defaultContentType
      rw [if_neg (by simp [hc])]
  · intro q b hq hb
    unfold RequestProfile.generate
    simp only [hins, hdef, hct, hq, hb]

/-- Witness for C3 (amended) at a concrete profile with a scalar body. -/
theorem content_type_override_wins_witness :
    RequestProfile.generate
      { url := { base := "http://h/t" }, body := some (.obj [("a", .num 1)]) }
      { headers := [("Content-Type", "application/x-www-form-urlencoded")] } =
      .ok ([("content-type", "application/x-www-form-urlencoded")],
        .obj [], "a=1") := by
  have h := (content_type_override_wins
    { url := { base := "http://h/t" }, body := some (.obj [("a", .num 1)]) }
    [] []).2.2.2.2 (.obj []) (.obj [("a", .num 1)]) rfl rfl
  exact h.trans (by rfl)

/-! ## C4 -/

/-- Counterexample to C4 as stated: under the form content type, a body with
a non-scalar top-level value is not serialized as URL-encoded form text and
does not yield `UnsupportedContentType` — the merge fails with the form
serialization error. -/
theorem generate_form_nested_counterexample :
    RequestProfile.generate
      { url := { base := "http://h/u" },
        headers := [("content-type", "application/x-www-form-urlencoded")],
        body := some (.obj [("a", .obj [("b", .num 1)])]) } {} =
      .error .formSerializeError := by
  decide

/-- C4 as amended: once the pre-dispatch phases of the merge succeed, the
encoding is negotiated from the (possibly defaulted) `Content-Type` header
with any parameter suffix after `;` ignored: `application/json` serializes
the body as compact JSON text; `application/x-www-form-urlencoded` and
`multipart/form-data` serialize it as URL-encoded form text when every
top-level body value is a scalar and otherwise fail with the serialization
error; every other content-type value fails with `UnsupportedContentType`;
and a content-type value that is not visible ASCII panics in
`get_content_type` instead. -/
theorem generate_content_type_dispatch (p : RequestProfile) (args : ExtraArgs)
    (h0 : HeaderMap) (q b : Json)
    (hh : applyHeaderOverrides p.headers args.headers = .ok h0)
    (hq : applyValueOverrides (p.params.getD (.obj [])) args.query = .ok q)
    (hb : applyValueOverrides (p.body.getD (.obj [])) args.body = .ok b) :
    (∀ v, hdrGet (defaultContentType h0) "content-type" = some v →
        v.data.all isVisibleAscii = true →
        get_content_type (defaultContentType h0) =
          .ok (some (String.mk (v.data.takeWhile (fun c => c ≠ ';')))))
  ∧ (get_content_type (defaultContentType h0) = .ok (some "application/json") →
        p.generate args = .ok (defaultContentType h0, q, jsonCompact b))
  ∧ (∀ ct, get_content_type (defaultContentType h0) = .ok (some ct) →
        (ct = "application/x-www-form-urlencoded" ∨ ct = "multipart/form-data") →
        p.generate args =
          match formUrlEncode b with
          | .ok s => .ok (defaultContentType h0, q, s)
          | .error e => .error e)
  ∧ (∀ ct, get_content_type (defaultContentType h0) = .ok (some ct) →
        ct ≠ "application/json" → ct ≠ "application/x-www-form-urlencoded" →
        ct ≠ "multipart/form-data" →
        p.generate args = .error .unsupportedContentType)
  ∧ (get_content_type (defaultContentType h0) = .error () →
        p.generate args = .error .panicked) := by
  refine ⟨?_, ?_, ?_, ?_, ?_⟩
  · intro v hv hascii
    have hvstr : headerValueToStr v = some v := by
      unfold headerValueToStr
      rw [hascii]
      simp
    simp only [get_content_type, hv, hvstr]
  · intro hct
    unfold RequestProfile.generate
    simp only [hh, hq, hb, hct]
  · intro ct hct hform
    unfold RequestProfile.generate
    simp only [hh, hq, hb, hct]
    rcases hform with h1 | h1 <;> rw [h1] <;> rfl
  · intro ct hct h1 h2 h3
    unfold RequestProfile.generate
    simp only [hh, hq, hb, hct]
    split
    · rename_i heq
      exact absurd (by injection heq) h1
    · rename_i heq
      exact absurd (by injection heq) h2
    · rename_i heq
      exact absurd (by injection heq) h3
    · rfl
  · intro hct
    unfold RequestProfile.generate
    simp only [hh, hq, hb, hct]

/-- Witness for C4 (amended) at concrete profiles: an unsupported content
type, a json profile with a parameter suffix, and a form profile. -/
theorem generate_content_type_dispatch_witness :
    RequestProfile.generate
      { url := { base := "http://h/t" }, headers := [("content-type", "text/html")] }
      {} = .error .unsupportedContentType
  ∧ RequestProfile.generate
      { url := { base := "http://h/t" },
        headers := [("content-type", "application/json; charset=utf-8")] }
      {} = .ok ([("content-type", "application/json; charset=utf-8")],
        .obj [], "\x7b\x7d")
  ∧ RequestProfile.generate
      { url := { base := "http://h/t" },
        headers := [("content-type", "multipart/form-data")],
        body := some (.obj [("a", .str "x")]) }
      {} = .ok ([("content-type", "multipart/form-data")], .obj [], "a=x") := by
  refine ⟨?_, ?_, ?_⟩
  · exact (generate_content_type_dispatch
      { url := { base := "http://h/t" }, headers := [("content-type", "text/html")] }
      {} [("content-type", "text/html")] (.obj []) (.obj []) rfl rfl rfl).2.2.2.1
      "text/html" (by decide) (by decide) (by decide) (by decide)
  · have h := (generate_content_type_dispatch
      { url := { base := "http://h/t" },
        headers := [("content-type", "application/json; charset=utf-8")] }
      {} [("content-type", "application/json; charset=utf-8")]
      (.obj []) (.obj []) rfl rfl rfl).2.1 (by decide)
    exact h.trans (by rfl)
  · have h := (generate_content_type_dispatch
      { url := { base := "http://h/t" },
        headers := [("content-type", "multipart/form-data")],
        body := some (.obj [("a", .str "x")]) }
      {} [("content-type", "multipart/form-data")]
      (.obj []) (.obj [("a", .str "x")]) rfl rfl rfl).2.2.1
      "multipart/form-data" (by decide) (Or.inr rfl)
    exact h.trans (by rfl)

/-! ## C7 -/

/-- Counterexample to C7 as stated: a valid profile declaring an unsupported
content type makes the empty-override merge fail entirely, so no query/body
content is reproduced. -/
theorem generate_empty_unsupported_counterexample :
    RequestProfile.validate
      { url := { base := "http://h/t" }, headers := [("content-type", "text/plain")] } =
      .ok ()
  ∧ RequestProfile.generate
      { url := { base := "http://h/t" }, headers := [("content-type", "text/plain")] }
      {} = .error .unsupportedContentType := by
  exact ⟨by decide, by decide⟩

set_option linter.unusedVariables false in
/-- C7 as amended: for every valid profile whose declared content type (after
the once-only defaulting) is supported, merging with the empty Override Set
reproduces exactly the profile's own params and body content: the query
object is the profile's params (or the empty object), and the body string is
the negotiated serialization of the profile's own body (or the empty
object). The embedding is pure, so the profile value itself is untouched. -/
theorem generate_empty_overrides (p : RequestProfile)
    (hvalid : p.validate = .ok ()) :
    (hdrContains p.headers "content-type" = false →
      p.generate {} = .ok (hdrInsert p.headers "content-type" "application/json",
        p.params.getD (.obj []), jsonCompact (p.body.getD (.obj []))))
  ∧ (get_content_type p.headers = .ok (some "application/json") →
      p.generate {} = .ok (p.headers, p.params.getD (.obj []),
        jsonCompact (p.body.getD (.obj []))))
  ∧ (∀ ct s, get_content_type p.headers = .ok (some ct) →
      (ct = "application/x-www-form-urlencoded" ∨ ct = "multipart/form-data") →
      formUrlEncode (p.body.getD (.obj [])) = .ok s →
      p.generate {} = .ok (p.headers, p.params.getD (.obj []), s)) := by
  have hsome_default : ∀ v, hdrGet p.headers "content-type" = some v →
      defaultContentType p.headers = p.headers := by
    intro v hv
    unfold defaultContentType
    rw [if_pos (hdrContains_of_hdrGet _ _ _ hv)]
  have hget_of_ct : ∀ ct, get_content_type p.headers = .ok (some ct) →
      ∃ v, hdrGet p.headers "content-type" = some v := by
    intro ct hct
    cases hg : hdrGet p.headers "content-type" with
    | none => simp [get_content_type, hg] at hct
    | some v => exact ⟨v, rfl⟩
  refine ⟨?_, ?_, ?_⟩
  · intro habsent
    have hdef : defaultContentType p.headers =
        hdrInsert p.headers "content-type" "application/json" := by
      unfold defaultContentType
      rw [if_neg (by simp [habsent])]
    have hct : get_content_type
        (hdrInsert p.headers "content-type" "application/json") =
        .ok (some "application/json") := by
      unfold get_content_type
      rw [hdrGet_hdrInsert_self]
      rfl
    rw [generate_empty_args, hdef, hct]
    rfl
  · intro hct
    obtain ⟨v, hv⟩ := hget_of_ct _ hct
    rw [generate_empty_args, hsome_default v hv, hct]
    rfl
  · intro ct s hct hform hser
    obtain ⟨v, hv⟩ := hget_of_ct _ hct
    rw [generate_empty_args, hsome_default v hv, hct]
    rcases hform with h1 | h1 <;> rw [h1] <;> rw [hser] <;> rfl

/-- Witness for C7 (amended) at a concrete valid profile with params and
body and no declared content type. -/
theorem generate_empty_overrides_witness :
    RequestProfile.generate
      { url := { base := "http://h/todo" },
        params := some (.obj [("a", .num 1)]),
        body := some (.obj [("t", .str "x")]) } {} =
      .ok ([("content-type", "application/json")],
        .obj [("a", .num 1)], "\x7b\"t\":\"x\"\x7d") := by
  have h := (generate_empty_overrides
    { url := { base := "http://h/todo" },
      params := some (.obj [("a", .num 1)]),
      body := some (.obj [("t", .str "x")]) } (by decide)).1 (by decide)
  exact h.trans (by rfl)

/-! ## C8 -/

/-- Counterexample to C8 as stated: `get_url` re-runs the whole merge, so a
profile with no params whose content type is unsupported makes `get_url`
fail instead of returning the URL unchanged. -/
theorem get_url_unsupported_counterexample :
    RequestProfile.get_url
      { url := { base := "http://h/v" }, headers := [("content-type", "text/plain")] }
      {} = .error .unsupportedContentType
  ∧ Url.render { base := "http://h/v" } = "http://h/v" := by
  exact ⟨by decide, by decide⟩

/-- If the merge succeeds, its query component is the result of the query
override phase. -/
theorem generate_ok_query (p : RequestProfile) (args : ExtraArgs)
    (h : HeaderMap) (q : Json) (b : String)
    (hgen : p.generate args = .ok (h, q, b)) :
    applyValueOverrides (p.params.getD (.obj [])) args.query = .ok q := by
  unfold RequestProfile.generate at hgen
  cases h1 : applyHeaderOverrides p.headers args.headers with
  | error e => simp only [h1] at hgen; cases hgen
  | ok h0 =>
    simp only [h1] at hgen
    cases h2 : applyValueOverrides (p.params.getD (Json.obj [])) args.query with
    | error e => simp only [h2] at hgen; cases hgen
    | ok q2 =>
      simp only [h2] at hgen
      cases h3 : applyValueOverrides (p.body.getD (Json.obj [])) args.body with
      | error e => simp only [h3] at hgen; cases hgen
      | ok b2 =>
        simp only [h3] at hgen
        cases h4 : get_content_type (defaultContentType h0) with
        | error e => simp only [h4] at hgen; cases hgen
        | ok ct =>
          simp only [h4] at hgen
          revert hgen
          split
          · intro hgen
            injection hgen with h5
            injection h5 with hA hRest
            injection hRest with hB hC
            rw [hB]
          · split
            · intro hgen
              injection hgen with h5
              injection h5 with hA hRest
              injection hRest with hB hC
              rw [hB]
            · intro hgen; cases hgen
          · split
            · intro hgen
              injection hgen with h5
              injection h5 with hA hRest
              injection hRest with hB hC
              rw [hB]
            · intro hgen; cases hgen
          · intro hgen; cases hgen

/-- C8 as amended: whenever the re-run merge succeeds, `get_url` on a profile
with no params and no overrides returns the profile's URL unchanged (and
without a trailing `?` when the URL has no query string); and whenever the
merge succeeds with a non-empty query object, `get_url` replaces the URL's
query string with the `serde_qs` serialization of that object. -/
theorem get_url_spec (p : RequestProfile) :
    (∀ h q b, p.params = none → p.generate {} = .ok (h, q, b) →
        p.get_url {} = .ok p.url.render
      ∧ (p.url.queryPart = none → p.get_url {} = .ok p.url.base))
  ∧ (∀ (args : ExtraArgs) (h : HeaderMap) (members : List (String × Json)) (b : String),
      p.generate args = .ok (h, .obj members, b) → members ≠ [] →
      p.get_url args =
        .ok (Url.render { base := p.url.base, queryPart := some (qsToString members) })) := by
  constructor
  · intro h q b hparams hgen
    have hq : q = .obj [] := by
      have happ := generate_ok_query p {} h q b hgen
      rw [hparams] at happ
      injection happ with happ
      exact happ.symm
    subst hq
    have hurl : p.get_url {} = .ok p.url.render := by
      unfold RequestProfile.get_url
      rw [hgen]
      rfl
    refine ⟨hurl, ?_⟩
    intro hnoq
    rw [hurl]
    unfold Url.render
    rw [hnoq]
    simp
  · intro args h members b hgen hne
    unfold RequestProfile.get_url
    rw [hgen]
    have : members.isEmpty = false := by
      cases members with
      | nil => exact absurd rfl hne
      | cons a l => rfl
    simp only [this]
    rfl

/-- Witness for C8 (amended): a profile with no params keeps its URL (query
string included) and gains no `?`; a profile with params gets its query
string replaced by the serialized merged query object. -/
theorem get_url_spec_witness :
    RequestProfile.get_url { url := { base := "http://h/todo" } } {} =
      .ok "http://h/todo"
  ∧ RequestProfile.get_url
      { url := { base := "http://h/todo", queryPart := some "c=3" } } {} =
      .ok "http://h/todo?c=3"
  ∧ RequestProfile.get_url
      { url := { base := "http://h/todo", queryPart := some "x=9" },
        params := some (.obj [("a", .num 1), ("b", .num 2)]) } {} =
      .ok "http://h/todo?a=1&b=2" := by
  refine ⟨?_, ?_, ?_⟩
  · have h := ((get_url_spec { url := { base := "http://h/todo" } }).1
      [("content-type", "application/json")] (.obj []) "\x7b\x7d" rfl (by rfl)).2 rfl
    exact h.trans (by decide)
  · have h := ((get_url_spec
      { url := { base := "http://h/todo", queryPart := some "c=3" } }).1
      [("content-type", "application/json")] (.obj []) "\x7b\x7d" rfl (by rfl)).1
    exact h.trans (by decide)
  · have h := (get_url_spec
      { url := { base := "http://h/todo", queryPart := some "x=9" },
        params := some (.obj [("a", .num 1), ("b", .num 2)]) }).2
      {} [("content-type", "application/json")]
      [("a", .num 1), ("b", .num 2)] "\x7b\x7d" (by rfl) (by simp)
    exact h.trans (by decide)

/-! ## C9: supporting lemmas on the diff engine -/

/-- The lines a tagged edit script attributes to the old text: everything but
the insertions. -/
def restoreOld (entries : List (DTag × String)) : List String :=
  entries.filterMap (fun e => if e.1 = DTag.insert then none else some e.2)

/-- The lines a tagged edit script attributes to the new text: everything but
the deletions. -/
def restoreNew (entries : List (DTag × String)) : List String :=
  entries.filterMap (fun e => if e.1 = DTag.delete then none else some e.2)

/-- The edit script is a faithful alignment: dropping the insertions
reproduces the old lines. -/
theorem lcsDiff_restoreOld : ∀ xs ys : List String,
    restoreOld (lcsDiff xs ys) = xs := by
  intro xs ys
  induction xs, ys using lcsDiff.induct with
  | case1 ys =>
    rw [lcsDiff]
    induction ys with
    | nil => rfl
    | cons y ys ih => simpa [restoreOld] using ih
  | case2 xs h =>
    rw [lcsDiff]
    · clear h
      induction xs with
      | nil => rfl
      | cons x xs ih => simpa [restoreOld] using ih
    · exact h
  | case3 xs y ys ih =>
    rw [lcsDiff, if_pos rfl]
    simpa [restoreOld] using ih
  | case4 x xs y ys hxy vd vi hcost ih1 ih2 =>
    rw [lcsDiff, if_neg hxy, if_pos hcost]
    simpa [restoreOld] using ih1
  | case5 x xs y ys hxy vd vi hcost ih1 ih2 =>
    rw [lcsDiff, if_neg hxy, if_neg hcost]
    simpa [restoreOld] using ih2

/-- The edit script is a faithful alignment: dropping the deletions
reproduces the new lines. -/
theorem lcsDiff_restoreNew : ∀ xs ys : List String,
    restoreNew (lcsDiff xs ys) = ys := by
  intro xs ys
  induction xs, ys using lcsDiff.induct with
  | case1 ys =>
    rw [lcsDiff]
    induction ys with
    | nil => rfl
    | cons y ys ih => simpa [restoreNew] using ih
  | case2 xs h =>
    rw [lcsDiff]
    · clear h
      induction xs with
      | nil => rfl
      | cons x xs ih => simpa [restoreNew] using ih
    · exact h
  | case3 xs y ys ih =>
    rw [lcsDiff, if_pos rfl]
    simpa [restoreNew] using ih
  | case4 x xs y ys hxy vd vi hcost ih1 ih2 =>
    rw [lcsDiff, if_neg hxy, if_pos hcost]
    simpa [restoreNew] using ih1
  | case5 x xs y ys hxy vd vi hcost ih1 ih2 =>
    rw [lcsDiff, if_neg hxy, if_neg hcost]
    simpa [restoreNew] using ih2

/-- Adjacent-operation relation: two consecutive operations are never both
equal runs. -/
def noAdjEq (g : List DiffOp) : Prop :=
  List.Chain' (fun a b => ¬(a.tag = DTag.equal ∧ b.tag = DTag.equal)) g

/-- An operation respects the context bound when an equal run is at most `n`
lines long. -/
def opEqBound (n : Nat) (op : DiffOp) : Prop :=
  op.tag = DTag.equal → op.len ≤ n

/-- The first operation of a hunk respects the context bound. -/
def headEqBound (n : Nat) (g : List DiffOp) : Prop :=
  ∀ op ∈ g.head?, opEqBound n op

/-- The last operation of a hunk respects the context bound. -/
def lastEqBound (n : Nat) (g : List DiffOp) : Prop :=
  ∀ op ∈ g.getLast?, opEqBound n op

/-- All operations have positive length. -/
def opsPos (g : List DiffOp) : Prop :=
  ∀ op ∈ g, 1 ≤ op.len

/-- The well-formedness of one hunk: bounded context at either end, no two
adjacent equal runs, and positive run lengths. -/
def GroupOk (n : Nat) (g : List DiffOp) : Prop :=
  headEqBound n g ∧ lastEqBound n g ∧ noAdjEq g ∧ opsPos g

theorem dropWhile_head_false {α} (p : α → Bool) :
    ∀ (l : List α) (a : α) (rest : List α),
      l.dropWhile p = a :: rest → p a = false := by
  intro l
  induction l with
  | nil => intro a rest h; cases h
  | cons x xs ih =>
    intro a rest h
    by_cases hx : p x = true
    · rw [List.dropWhile_cons_of_pos hx] at h
      exact ih a rest h
    · rw [List.dropWhile_cons_of_neg hx] at h
      cases h
      simpa using hx

/-- The head of the run-length conversion carries the tag of the first
entry. -/
theorem toOps_head_tag (entries : List (DTag × String)) (i j : Nat)
    (op : DiffOp) (h : (toOps entries i j).head? = some op) :
    ∃ e, entries.head? = some e ∧ op.tag = e.1 := by
  cases entries with
  | nil => rw [toOps] at h; cases h
  | cons e rest =>
    obtain ⟨t, s⟩ := e
    rw [toOps] at h
    injection h with h
    exact ⟨(t, s), rfl, by rw [← h]⟩

/-- The run-length conversion produces no two adjacent operations of the
same tag; in particular no two adjacent equal runs. -/
theorem toOps_chain (entries : List (DTag × String)) (i j : Nat) :
    noAdjEq (toOps entries i j) := by
  induction entries, i, j using toOps.induct with
  | case1 i j => rw [toOps]; exact List.chain'_nil
  | case2 t s rest i j runLen rest2 next ih =>
    rw [toOps]
    unfold noAdjEq
    rw [List.chain'_cons']
    refine ⟨?_, ih⟩
    intro op2 hop2
    obtain ⟨e2, he2, htag⟩ := toOps_head_tag _ _ _ _ hop2
    have hne : (decide (e2.1 = t)) = false := by
      cases hr : List.dropWhile (fun e => decide (e.1 = t)) rest with
      | nil => rw [hr] at he2; cases he2
      | cons a l =>
        rw [hr] at he2
        injection he2 with he2
        subst he2
        exact dropWhile_head_false _ rest _ l hr
    rintro ⟨h1, h2⟩
    have ht : t = DTag.equal := h1
    rw [← htag, h2] at hne
    rw [ht] at hne
    simp at hne

/-- Every operation of the run-length conversion has positive length. -/
theorem toOps_pos (entries : List (DTag × String)) (i j : Nat) :
    opsPos (toOps entries i j) := by
  induction entries, i, j using toOps.induct with
  | case1 i j => rw [toOps]; intro op hop; cases hop
  | case2 t s rest i j runLen rest2 next ih =>
    rw [toOps]
    intro op hop
    rcases List.mem_cons.mp hop with h | h
    · rw [h]
      exact Nat.le_add_right 1 _
    · exact ih op h

theorem trimFirstOp_tags (n : Nat) (l : List DiffOp) :
    (trimFirstOp n l).map (fun op => op.tag) = l.map (fun op => op.tag) := by
  cases l with
  | nil => rfl
  | cons op rest =>
    rw [trimFirstOp]
    by_cases h : op.tag = DTag.equal
    · rw [if_pos h]
      simp [h]
    · rw [if_neg h]

theorem trimLastOp_tags (n : Nat) : ∀ l : List DiffOp,
    (trimLastOp n l).map (fun op => op.tag) = l.map (fun op => op.tag) := by
  intro l
  induction l with
  | nil => rfl
  | cons op rest ih =>
    cases rest with
    | nil =>
      rw [trimLastOp]
      by_cases h : op.tag = DTag.equal
      · rw [if_pos h]
        simp [h]
      · rw [if_neg h]
    | cons op2 rest2 =>
      rw [trimLastOp]
      simp only [List.map_cons]
      rw [ih]
      simp

theorem trimFirstOp_pos (n : Nat) (hn : 1 ≤ n) (l : List DiffOp)
    (h : opsPos l) : opsPos (trimFirstOp n l) := by
  cases l with
  | nil => intro op hop; cases hop
  | cons op rest =>
    rw [trimFirstOp]
    by_cases ht : op.tag = DTag.equal
    · rw [if_pos ht]
      intro op2 hop2
      rcases List.mem_cons.mp hop2 with h2 | h2
      · have h1 : 1 ≤ op.len := h op (List.mem_cons_self _ _)
        rw [h2]
        simp only []
        omega
      · exact h op2 (List.mem_cons_of_mem _ h2)
    · rw [if_neg ht]
      exact h

theorem trimLastOp_pos (n : Nat) (hn : 1 ≤ n) : ∀ l : List DiffOp,
    opsPos l → opsPos (trimLastOp n l) := by
  intro l
  induction l with
  | nil => intro _ op hop; cases hop
  | cons op rest ih =>
    intro h
    cases rest with
    | nil =>
      rw [trimLastOp]
      by_cases ht : op.tag = DTag.equal
      · rw [if_pos ht]
        intro op2 hop2
        have h1 : 1 ≤ op.len := h op (List.mem_cons_self _ _)
        simp at hop2
        rw [hop2]
        simp only []
        omega
      · rw [if_neg ht]
        exact h
    | cons op2 rest2 =>
      rw [trimLastOp]
      intro op3 hop3
      rcases List.mem_cons.mp hop3 with h3 | h3
      · rw [h3]
        exact h op (List.mem_cons_self _ _)
      · exact ih (fun o ho => h o (List.mem_cons_of_mem _ ho)) op3 h3

theorem trimFirstOp_headBound (n : Nat) (l : List DiffOp) :
    headEqBound n (trimFirstOp n l) := by
  cases l with
  | nil => intro op hop; cases hop
  | cons op rest =>
    rw [trimFirstOp]
    by_cases ht : op.tag = DTag.equal
    · rw [if_pos ht]
      intro op2 hop2 htag
      simp at hop2
      rw [← hop2]
      simp only []
      omega
    · rw [if_neg ht]
      intro op2 hop2 htag
      simp at hop2
      rw [← hop2] at htag
      exact absurd htag ht

theorem trimLastOp_headBound (n : Nat) (l : List DiffOp)
    (h : headEqBound n l) : headEqBound n (trimLastOp n l) := by
  cases l with
  | nil => intro op hop; cases hop
  | cons op rest =>
    cases rest with
    | nil =>
      rw [trimLastOp]
      by_cases ht : op.tag = DTag.equal
      · rw [if_pos ht]
        intro op2 hop2 htag
        simp at hop2
        rw [← hop2]
        exact Nat.min_le_right _ _
      · rw [if_neg ht]
        exact h
    | cons op2 rest2 =>
      rw [trimLastOp]
      intro op3 hop3 htag
      simp at hop3
      rw [← hop3]
      exact h op (by simp) (by rw [hop3]; exact htag)

theorem trimLastOp_ne_nil (n : Nat) (x : DiffOp) (xs : List DiffOp) :
    trimLastOp n (x :: xs) ≠ [] := by
  cases xs with
  | nil =>
    rw [trimLastOp]
    by_cases h : x.tag = DTag.equal
    · rw [if_pos h]; simp
    · rw [if_neg h]; simp
  | cons y ys =>
    rw [trimLastOp]
    simp

theorem trimLastOp_lastBound (n : Nat) : ∀ l : List DiffOp,
    lastEqBound n (trimLastOp n l) := by
  intro l
  induction l with
  | nil => intro op hop; cases hop
  | cons op rest ih =>
    cases rest with
    | nil =>
      rw [trimLastOp]
      by_cases ht : op.tag = DTag.equal
      · rw [if_pos ht]
        intro op2 hop2 htag
        simp [List.getLast?_singleton] at hop2
        rw [← hop2]
        exact Nat.min_le_right _ _
      · rw [if_neg ht]
        intro op2 hop2 htag
        simp [List.getLast?_singleton] at hop2
        rw [← hop2] at htag
        exact absurd htag ht
    | cons op2 rest2 =>
      rw [trimLastOp]
      intro op3 hop3
      obtain ⟨y, ys, hys⟩ := List.exists_cons_of_ne_nil (trimLastOp_ne_nil n op2 rest2)
      rw [hys, List.getLast?_cons_cons, ← hys] at hop3
      exact ih op3 hop3

/-- The adjacency relation only sees tags, so it transfers along equal tag
lists. -/
theorem noAdjEq_of_tags_eq {l1 l2 : List DiffOp}
    (htags : l2.map (fun op => op.tag) = l1.map (fun op => op.tag))
    (h : noAdjEq l1) : noAdjEq l2 := by
  unfold noAdjEq at h ⊢
  have h1 : List.Chain' (fun a b => ¬(a = DTag.equal ∧ b = DTag.equal))
      (l1.map (fun op => op.tag)) := (List.chain'_map _).mpr h
  rw [← htags] at h1
  exact (List.chain'_map _).mp h1

/-- The grouping loop only emits well-formed hunks: every group in the result
has at most `n` lines of equal context at either end, no two adjacent equal
runs, and positive run lengths. -/
theorem groupLoop_ok (n : Nat) (hn : 1 ≤ n) :
    ∀ (ops pending : List DiffOp) (acc : List (List DiffOp)),
      (∀ g ∈ acc, GroupOk n g) →
      (pending = [] → headEqBound n ops) →
      (pending ≠ [] → headEqBound n pending) →
      noAdjEq (pending ++ ops) →
      opsPos (pending ++ ops) →
      lastEqBound n (pending ++ ops) →
      ∀ g ∈ groupLoop n pending acc ops, GroupOk n g := by
  intro ops
  induction ops with
  | nil =>
    intro pending acc hA hB hC hD hE hF
    rw [List.append_nil] at hD hE hF
    cases pending with
    | nil =>
      rw [groupLoop]
      exact hA
    | cons p1 ptail =>
      cases ptail with
      | nil =>
        rw [groupLoop]
        by_cases ht : p1.tag = DTag.equal
        · rw [if_pos ht]
          exact hA
        · rw [if_neg ht]
          intro g hg
          rcases List.mem_append.mp hg with hgl | hgl
          · exact hA g hgl
          · simp at hgl
            subst hgl
            refine ⟨?_, ?_, List.chain'_singleton _, ?_⟩
            · intro op hop htg
              simp at hop
              subst hop
              exact absurd htg ht
            · intro op hop htg
              simp [List.getLast?_singleton] at hop
              subst hop
              exact absurd htg ht
            · intro op hop
              simp at hop
              subst hop
              exact hE _ (by simp)
      | cons p2 ptail2 =>
        rw [groupLoop]
        · intro g hg
          rcases List.mem_append.mp hg with hgl | hgl
          · exact hA g hgl
          · simp at hgl
            subst hgl
            exact ⟨hC (by simp), hF, hD, hE⟩
        · intro h
          cases h
        · intro o h
          simp at h
  | cons op rest ih =>
    intro pending acc hA hB hC hD hE hF
    rw [groupLoop]
    by_cases hsplit : op.tag = DTag.equal ∧ n * 2 < op.len
    · rw [if_pos hsplit]
      obtain ⟨hteq, hlen⟩ := hsplit
      cases pending with
      | nil =>
        apply ih
        · exact hA
        · intro habs
          exact absurd habs (by simp)
        · intro _ op2 hop2 htg
          simp at hop2
          subst hop2
          exact Nat.le_refl n
        · apply noAdjEq_of_tags_eq (h := hD)
          simp [hteq]
        · intro op2 hop2
          rcases List.mem_cons.mp hop2 with h2 | h2
          · rw [h2]
            exact hn
          · replace h2 : op2 ∈ rest := h2
            exact hE op2 (List.mem_cons_of_mem _ h2)
        · cases rest with
          | nil =>
            intro op2 hop2 htg
            rw [List.append_nil] at hop2
            simp [List.getLast?_singleton] at hop2
            subst hop2
            exact Nat.le_refl n
          | cons r1 rt =>
            intro op2 hop2 htg
            apply hF op2 ?_ htg
            show op2 ∈ (([] : List DiffOp) ++ op :: r1 :: rt).getLast?
            rw [List.nil_append, List.getLast?_cons_cons]
            rw [show (([⟨DTag.equal, op.oldIndex + op.len - n,
                op.newIndex + op.len - n, n⟩] : List DiffOp) ++ r1 :: rt) =
              ⟨DTag.equal, op.oldIndex + op.len - n, op.newIndex + op.len - n, n⟩
                :: r1 :: rt from rfl, List.getLast?_cons_cons] at hop2
            exact hop2
      | cons p1 pt =>
        apply ih
        · intro g hg
          replace hg : g ∈ acc ++
              [(p1 :: pt) ++ [⟨DTag.equal, op.oldIndex, op.newIndex, n⟩]] := hg
          rcases List.mem_append.mp hg with hgl | hgl
          · exact hA g hgl
          · simp only [List.mem_singleton] at hgl
            subst hgl
            refine ⟨?_, ?_, ?_, ?_⟩
            · intro op2 hop2 htg
              simp at hop2
              subst hop2
              exact hC (by simp) _ (by simp) htg
            · intro op2 hop2 htg
              rw [List.getLast?_concat] at hop2
              simp at hop2
              subst hop2
              exact Nat.le_refl n
            · have hpre : noAdjEq ((p1 :: pt) ++ [op]) := by
                unfold noAdjEq at hD ⊢
                exact hD.prefix ⟨rest, by simp⟩
              apply noAdjEq_of_tags_eq (h := hpre)
              simp [hteq]
            · intro op2 hop2
              rcases List.mem_append.mp hop2 with h2 | h2
              · exact hE op2 (List.mem_append_left _ h2)
              · simp at h2
                subst h2
                exact hn
        · intro habs
          exact absurd habs (by simp)
        · intro _ op2 hop2 htg
          simp at hop2
          subst hop2
          exact Nat.le_refl n
        · have hsuf : noAdjEq (op :: rest) := by
            unfold noAdjEq at hD ⊢
            exact hD.suffix ⟨p1 :: pt, rfl⟩
          apply noAdjEq_of_tags_eq (h := hsuf)
          simp [hteq]
        · intro op2 hop2
          rcases List.mem_cons.mp hop2 with h2 | h2
          · rw [h2]
            exact hn
          · replace h2 : op2 ∈ rest := h2
            exact hE op2 (by simp [h2])
        · cases rest with
          | nil =>
            intro op2 hop2 htg
            rw [List.append_nil] at hop2
            simp [List.getLast?_singleton] at hop2
            subst hop2
            exact Nat.le_refl n
          | cons r1 rt =>
            intro op2 hop2 htg
            apply hF op2 ?_ htg
            show op2 ∈ ((p1 :: pt) ++ op :: r1 :: rt).getLast?
            rw [List.getLast?_append_of_ne_nil _ (by simp), List.getLast?_cons_cons]
            rw [show (([⟨DTag.equal, op.oldIndex + op.len - n,
                op.newIndex + op.len - n, n⟩] : List DiffOp) ++ r1 :: rt) =
              ⟨DTag.equal, op.oldIndex + op.len - n, op.newIndex + op.len - n, n⟩
                :: r1 :: rt from rfl, List.getLast?_cons_cons] at hop2
            exact hop2
    · rw [if_neg hsplit]
      have heq : (pending ++ [op]) ++ rest = pending ++ op :: rest := by simp
      apply ih
      · exact hA
      · intro habs
        exact absurd habs (by simp)
      · intro _
        cases pending with
        | nil =>
          intro op2 hop2 htg
          simp at hop2
          subst hop2
          exact hB rfl _ (by simp) htg
        | cons p1 pt =>
          intro op2 hop2 htg
          simp at hop2
          subst hop2
          exact hC (by simp) _ (by simp) htg
      · rw [heq]
        exact hD
      · rw [heq]
        exact hE
      · rw [heq]
        exact hF

/-- Every hunk of `grouped_ops` is well formed. -/
theorem groupedOps_ok (n : Nat) (hn : 1 ≤ n) (ops : List DiffOp)
    (hchain : noAdjEq ops) (hpos : opsPos ops) :
    ∀ g ∈ groupedOps n ops, GroupOk n g := by
  unfold groupedOps
  cases ops with
  | nil => intro g hg; cases hg
  | cons op rest =>
    apply groupLoop_ok n hn _ [] []
    · intro g hg
      cases hg
    · intro _
      exact trimLastOp_headBound n _ (trimFirstOp_headBound n _)
    · intro habs
      exact absurd rfl habs
    · show noAdjEq ([] ++ _)
      rw [List.nil_append]
      apply noAdjEq_of_tags_eq (h := hchain)
      rw [trimLastOp_tags, trimFirstOp_tags]
    · show opsPos ([] ++ _)
      rw [List.nil_append]
      exact trimLastOp_pos n hn _ (trimFirstOp_pos n hn _ hpos)
    · show lastEqBound n ([] ++ _)
      rw [List.nil_append]
      exact trimLastOp_lastBound n _

theorem changesOfOp_tag (oldL newL : List String) (op : DiffOp) :
    ∀ c ∈ changesOfOp oldL newL op, c.tag = op.tag := by
  intro c hc
  unfold changesOfOp at hc
  cases htag : op.tag <;> rw [htag] at hc <;>
    obtain ⟨k, _, hk⟩ := List.mem_map.mp hc <;> rw [← hk]

theorem changesOfOp_len (oldL newL : List String) (op : DiffOp) :
    (changesOfOp oldL newL op).length = op.len := by
  unfold changesOfOp
  cases htag : op.tag <;> simp

theorem changesOfOp_fields (oldL newL : List String) (op : DiffOp) :
    ∀ c ∈ changesOfOp oldL newL op,
      (c.oldIdx = none ↔ c.tag = DTag.insert) ∧
      (c.newIdx = none ↔ c.tag = DTag.delete) := by
  intro c hc
  unfold changesOfOp at hc
  cases htag : op.tag <;> rw [htag] at hc <;>
    obtain ⟨k, _, hk⟩ := List.mem_map.mp hc <;> rw [← hk] <;> simp

/-- The leading run of equal changes in a flattened hunk is bounded by the
context width, for any per-operation change expansion `f` that preserves tags
and run lengths. -/
theorem flatten_leading_equal_le
    (f : DiffOp → List Change)
    (hft : ∀ op, ∀ c ∈ f op, c.tag = op.tag)
    (hfl : ∀ op, (f op).length = op.len)
    (n : Nat) :
    ∀ g : List DiffOp, headEqBound n g → noAdjEq g → opsPos g →
      ((g.map f).flatten.takeWhile (fun c => decide (c.tag = DTag.equal))).length
        ≤ n := by
  intro g hhead hchain hpos
  cases g with
  | nil => simp
  | cons op rest =>
    rw [List.map_cons, List.flatten_cons]
    by_cases ht : op.tag = DTag.equal
    · have hall : ∀ c ∈ f op, (decide (c.tag = DTag.equal)) = true := by
        intro c hc
        simp [hft op c hc, ht]
      rw [takeWhile_append_all _ _ _ hall]
      have hlen : (f op).length ≤ n := by
        rw [hfl op]
        exact hhead op (by simp) ht
      cases rest with
      | nil => simpa using hlen
      | cons op2 rest2 =>
        have ht2 : ¬op2.tag = DTag.equal := by
          unfold noAdjEq at hchain
          rw [List.chain'_cons] at hchain
          intro habs
          exact hchain.1 ⟨ht, habs⟩
        obtain ⟨c2, cs2, hc2⟩ : ∃ c2 cs2, f op2 = c2 :: cs2 := by
          cases hfo : f op2 with
          | nil =>
            exfalso
            have h1 := hfl op2
            rw [hfo] at h1
            simp at h1
            have h2 := hpos op2 (by simp)
            omega
          | cons a l => exact ⟨a, l, rfl⟩
        have hc2f : (decide (c2.tag = DTag.equal)) = false := by
          have := hft op2 c2 (by rw [hc2]; simp)
          simp [this]
          exact ht2
        rw [List.map_cons, List.flatten_cons, hc2, List.cons_append,
          List.takeWhile_cons_of_neg (by simp [hc2f])]
        simpa using hlen
    · cases hfo : f op with
      | nil =>
        exfalso
        have h1 := hfl op
        rw [hfo] at h1
        simp at h1
        have h2 := hpos op (by simp)
        omega
      | cons c cs =>
        have hcf : (decide (c.tag = DTag.equal)) = false := by
          have := hft op c (by rw [hfo]; simp)
          simp [this]
          exact ht
        rw [List.cons_append, List.takeWhile_cons_of_neg (by simp [hcf])]
        simp

/-- The trailing run of equal changes in a flattened hunk is bounded by the
context width. -/
theorem flatten_trailing_equal_le
    (f : DiffOp → List Change)
    (hft : ∀ op, ∀ c ∈ f op, c.tag = op.tag)
    (hfl : ∀ op, (f op).length = op.len)
    (n : Nat) (g : List DiffOp)
    (hlast : lastEqBound n g) (hchain : noAdjEq g) (hpos : opsPos g) :
    ((g.map f).flatten.reverse.takeWhile
      (fun c => decide (c.tag = DTag.equal))).length ≤ n := by
  have hEq : (g.map f).flatten.reverse =
      (g.reverse.map (fun op => (f op).reverse)).flatten := by
    rw [List.reverse_flatten, List.map_map, ← List.map_reverse]
    rfl
  rw [hEq]
  apply flatten_leading_equal_le (fun op => (f op).reverse)
  · intro op c hc
    exact hft op c (List.mem_reverse.mp hc)
  · intro op
    rw [List.length_reverse]
    exact hfl op
  · intro op hop
    rw [List.head?_reverse] at hop
    exact hlast op hop
  · unfold noAdjEq at hchain ⊢
    rw [List.chain'_reverse]
    refine List.Chain'.imp ?_ hchain
    intro a b h habs
    exact h ⟨habs.2, habs.1⟩
  · intro op hop
    exact hpos op (List.mem_reverse.mp hop)

theorem renderGroupsAux_succ (render : List DiffOp → String) :
    ∀ (gs : List (List DiffOp)) (idx : Nat),
      renderGroupsAux render (idx + 1) gs =
        joinStrs (gs.map (fun g => hunkSeparator ++ render g)) := by
  intro gs
  induction gs with
  | nil => intro idx; rfl
  | cons g rest ih =>
    intro idx
    rw [renderGroupsAux, if_pos (Nat.succ_pos idx), List.map_cons, joinStrs, ih]

/-- C9: for every pair of input texts, `diff_text` renders the first hunk and
then every further hunk preceded by the eighty-dash separator; the line diff
it renders faithfully realigns both texts (dropping insertions gives the old
lines, dropping deletions the new lines); every hunk carries at most three
equal context lines at its start and at its end; and every change line is
rendered as the old-line-number column (blank exactly when the line is absent
from the first text, i.e. for inserts), the new-line-number column (blank
exactly for deletes), the ` |` divider, the sign column and the line content. -/
theorem diff_text_spec (t1 t2 : String) :
    (diff_text t1 t2 =
      match groupedOps 3 (diffOps (splitLinesKeepEnds t1) (splitLinesKeepEnds t2)) with
      | [] => ""
      | g :: rest =>
        renderGroup (splitLinesKeepEnds t1) (splitLinesKeepEnds t2) g ++
          joinStrs (rest.map (fun g2 =>
            hunkSeparator ++
              renderGroup (splitLinesKeepEnds t1) (splitLinesKeepEnds t2) g2))) ∧
    restoreOld (lcsDiff (splitLinesKeepEnds t1) (splitLinesKeepEnds t2)) =
      splitLinesKeepEnds t1 ∧
    restoreNew (lcsDiff (splitLinesKeepEnds t1) (splitLinesKeepEnds t2)) =
      splitLinesKeepEnds t2 ∧
    (∀ g ∈ groupedOps 3 (diffOps (splitLinesKeepEnds t1) (splitLinesKeepEnds t2)),
      ((groupChanges (splitLinesKeepEnds t1) (splitLinesKeepEnds t2) g).takeWhile
        (fun c => decide (c.tag = DTag.equal))).length ≤ 3 ∧
      ((groupChanges (splitLinesKeepEnds t1) (splitLinesKeepEnds t2) g).reverse.takeWhile
        (fun c => decide (c.tag = DTag.equal))).length ≤ 3) ∧
    (∀ g ∈ groupedOps 3 (diffOps (splitLinesKeepEnds t1) (splitLinesKeepEnds t2)),
      ∀ c ∈ groupChanges (splitLinesKeepEnds t1) (splitLinesKeepEnds t2) g,
        renderChange c =
          lineColumn c.oldIdx ++ lineColumn c.newIdx ++ " |" ++ signOf c.tag ++
            c.value ++ (if c.value.endsWith "\n" then "" else "\n") ∧
        (c.oldIdx = none ↔ c.tag = DTag.insert) ∧
        (c.newIdx = none ↔ c.tag = DTag.delete)) := by
  refine ⟨?_, lcsDiff_restoreOld _ _, lcsDiff_restoreNew _ _, ?_, ?_⟩
  · cases hg : groupedOps 3 (diffOps (splitLinesKeepEnds t1) (splitLinesKeepEnds t2)) with
    | nil =>
      simp only [diff_text, hg]
      rfl
    | cons g rest =>
      simp only [diff_text, hg]
      rw [renderGroupsAux, if_neg (Nat.lt_irrefl 0), renderGroupsAux_succ]
      simp
  · intro g hgmem
    have hok := groupedOps_ok 3 (by decide)
      (diffOps (splitLinesKeepEnds t1) (splitLinesKeepEnds t2))
      (toOps_chain _ 0 0) (toOps_pos _ 0 0) g hgmem
    obtain ⟨hhead, hlast, hchain, hpos⟩ := hok
    constructor
    · unfold groupChanges
      exact flatten_leading_equal_le _ (changesOfOp_tag _ _) (changesOfOp_len _ _)
        3 g hhead hchain hpos
    · unfold groupChanges
      exact flatten_trailing_equal_le _ (changesOfOp_tag _ _) (changesOfOp_len _ _)
        3 g hlast hchain hpos
  · intro g hgmem c hc
    refine ⟨rfl, ?_⟩
    unfold groupChanges at hc
    rw [List.mem_flatten] at hc
    obtain ⟨l, hl, hcl⟩ := hc
    rw [List.mem_map] at hl
    obtain ⟨op, hop, hfeq⟩ := hl
    rw [← hfeq] at hcl
    exact changesOfOp_fields _ _ op c hcl

end XdiffSpec
